import Mathlib

/-!
# points-converter.com API (`api/main.go`)

A shallow embedding of the Go program in `api/main.go` together with the parts of
the libraries it calls that decide its observable behaviour:

* `encoding/json` (`Unmarshal` into `*ConversionData`, `Marshal` of it),
* `strconv` (`ParseFloat` / shortest `FormatFloat` for `float64`),
* `os` (`Stat`, `ReadFile`) over a static file system,
* `gin` (`c.JSON`, routing of the two `GET` routes, the no-route chain),
* `gin-contrib/cors` (the middleware built from the configuration in `main`).

File contents are represented by their JSON parse tree (or by `malformed` when the
bytes are not a JSON text); strings are sequences of Unicode scalar values.
-/

namespace PointsConverter

/-! ## JSON documents -/

/-- A JSON number token `[-]int[.frac][e[+-]exp]`, kept as sign, decimal mantissa
and decimal exponent: it denotes `(-1)^neg * mant * 10^exp`. -/
structure JNumber where
  neg : Bool
  mant : Nat
  exp : Int
  deriving DecidableEq, Repr

/-- The parse tree of a JSON text. Object members are kept in document order,
duplicates included. -/
inductive JSON where
  | null : JSON
  | bool (b : Bool) : JSON
  | num (n : JNumber) : JSON
  | str (s : String) : JSON
  | arr (xs : List JSON) : JSON
  | obj (kvs : List (String × JSON)) : JSON
  deriving Repr

mutual
/-- Nesting depth of a document: the largest number of simultaneously open
arrays and objects (what `encoding/json`'s scanner keeps in `parseState`). -/
def JSON.depth : JSON → Nat
  | .arr xs => depthList xs + 1
  | .obj kvs => depthMembers kvs + 1
  | _ => 0
/-- Largest depth among the elements of an array. -/
def depthList : List JSON → Nat
  | [] => 0
  | x :: xs => max x.depth (depthList xs)
/-- Largest depth among the member values of an object. -/
def depthMembers : List (String × JSON) → Nat
  | [] => 0
  | (_, v) :: rest => max v.depth (depthMembers rest)
end

/-- The `maxNestingDepth` constant of `encoding/json/scanner.go`. -/
def maxNestingDepth : Nat := 10000

/-! ## `float64` and `strconv` -/

/-- A finite IEEE-754 binary64 value `(-1)^neg * mant * 2^exp`, with
`mant < 2^53` and `-1074 ≤ exp ≤ 971` (`mant ≥ 2^52` unless `exp = -1074`). -/
structure F64 where
  neg : Bool
  mant : Nat
  exp : Int
  deriving DecidableEq, Repr

/-- Powers of ten. -/
def pow10 : Nat → Nat
  | 0 => 1
  | n + 1 => 10 * pow10 n

/-- Powers of two. -/
def pow2 : Nat → Nat
  | 0 => 1
  | n + 1 => 2 * pow2 n

/-- Number of binary digits of `n`, halving at most `fuel` times. -/
def bitLenAux : Nat → Nat → Nat
  | 0, _ => 0
  | fuel + 1, n => if n = 0 then 0 else bitLenAux fuel (n / 2) + 1

/-- Number of binary digits of `n` (`0` for `0`). -/
def bitLen (n : Nat) : Nat := bitLenAux n n

/-- Nearest integer to `num / den`, ties to the even one. -/
def roundHalfEven (num den : Nat) : Nat :=
  let q := num / den
  let r := num % den
  if 2 * r < den then q
  else if den < 2 * r then q + 1
  else if q % 2 = 0 then q else q + 1

/-- The fraction `num / den` divided by `2^e`, again as a fraction. -/
def scaleBin (num den : Nat) (e : Int) : Nat × Nat :=
  if 0 ≤ e then (num, den * pow2 e.toNat) else (num * pow2 (-e).toNat, den)

/-- The fraction `num / den` divided by `10^p`, again as a fraction. -/
def scaleDec (num den : Nat) (p : Int) : Nat × Nat :=
  if 0 ≤ p then (num, den * pow10 p.toNat) else (num * pow10 (-p).toNat, den)

/-- Correct rounding of the positive fraction `num / den` to binary64
(round to nearest, ties to even, gradual underflow); `none` when the rounded
value exceeds the largest finite `float64`. -/
def roundToF64 (neg : Bool) (num den : Nat) : Option F64 :=
  if num = 0 then some ⟨neg, 0, -1074⟩
  else
    let k : Int := (bitLen num : Int) - (bitLen den : Int)
    let s1 := scaleBin num den (k - 52)
    let e0 : Int := if s1.2 * pow2 52 ≤ s1.1 then k - 52 else k - 53
    let e : Int := if e0 < -1074 then -1074 else e0
    let s := scaleBin num den e
    let m := roundHalfEven s.1 s.2
    let r : Nat × Int := if m = pow2 53 then (pow2 52, e + 1) else (m, e)
    if 971 < r.2 then none else some ⟨neg, r.1, r.2⟩

/-- The magnitude of a JSON number as a fraction of naturals. -/
def JNumber.frac (n : JNumber) : Nat × Nat :=
  if 0 ≤ n.exp then (n.mant * pow10 n.exp.toNat, 1) else (n.mant, pow10 (-n.exp).toNat)

/-- The magnitude of a `float64` as a fraction of naturals. -/
def F64.frac (f : F64) : Nat × Nat :=
  if 0 ≤ f.exp then (f.mant * pow2 f.exp.toNat, 1) else (f.mant, pow2 (-f.exp).toNat)

/-- `strconv.ParseFloat(s, 64)` on a JSON number token: the correctly rounded
`float64`, or `none` for the `ErrRange` result (overflow to infinity). Underflow
to zero is not an error. -/
def parseFloat (n : JNumber) : Option F64 :=
  roundToF64 n.neg n.frac.1 n.frac.2

/-- How often `den` can be multiplied by ten without exceeding `num`. -/
def log10Up : Nat → Nat → Nat → Nat
  | 0, _, _ => 0
  | fuel + 1, num, den => if den * 10 ≤ num then log10Up fuel num (den * 10) + 1 else 0

/-- How often `num` must be multiplied by ten to reach `den`. -/
def log10Down : Nat → Nat → Nat → Nat
  | 0, _, _ => 0
  | fuel + 1, num, den => if den ≤ num * 10 then 1 else log10Down fuel (num * 10) den + 1

/-- The decimal exponent `d` with `10^d ≤ num / den < 10^(d+1)`. -/
def floorLog10 (num den : Nat) : Int :=
  if den ≤ num then (log10Up (bitLen num) num den : Int)
  else -(log10Down (bitLen den) num den : Int)

/-- Whether the decimal `digits * 10^p` (with the sign of `f`) parses back to `f`. -/
def roundsTo (f : F64) (digits : Nat) (p : Int) : Bool :=
  parseFloat ⟨f.neg, digits, p⟩ == some f

/-- The decimal with `n` significant digits nearest to `f` among those that parse
back to `f`, if there is one. `d` is the decimal exponent of `f`. -/
def shortestAt (f : F64) (d : Int) (n : Nat) : Option JNumber :=
  let p : Int := d - ((n : Int) - 1)
  let s := scaleDec f.frac.1 f.frac.2 p
  let lo := s.1 / s.2
  let rem := s.1 % s.2
  let okLo := roundsTo f lo p
  let okHi := roundsTo f (lo + 1) p
  if rem = 0 then some ⟨f.neg, lo, p⟩
  else if okLo && okHi then
    (if 2 * rem < s.2 then some ⟨f.neg, lo, p⟩
     else if s.2 < 2 * rem then some ⟨f.neg, lo + 1, p⟩
     else if lo % 2 = 0 then some ⟨f.neg, lo, p⟩ else some ⟨f.neg, lo + 1, p⟩)
  else if okLo then some ⟨f.neg, lo, p⟩
  else if okHi then some ⟨f.neg, lo + 1, p⟩
  else none

/-- Search for the shortest decimal, trying `n`, `n + 1`, ... significant digits;
when the fuel is spent the value is rounded to `n` digits. -/
def shortestFrom (f : F64) (d : Int) : Nat → Nat → JNumber
  | 0, n =>
    let s := scaleDec f.frac.1 f.frac.2 (d - ((n : Int) - 1))
    ⟨f.neg, roundHalfEven s.1 s.2, d - ((n : Int) - 1)⟩
  | fuel + 1, n =>
    match shortestAt f d n with
    | some r => r
    | none => shortestFrom f d fuel (n + 1)

/-- The number `strconv.AppendFloat(b, f, fmt, -1, 64)` writes (as `encoding/json`
calls it for a `float64`): the shortest decimal that parses back to `f`, at most
17 significant digits. Only its value is kept, not the choice between the `f` and
`e` layouts. -/
def formatFloat (f : F64) : JNumber :=
  if f.mant = 0 then ⟨f.neg, 0, 0⟩
  else shortestFrom f (floorLog10 f.frac.1 f.frac.2) 16 1

/-- Remove trailing zero digits from a decimal mantissa. -/
def stripZeros : Nat → Nat → Int → Nat × Int
  | 0, m, e => (m, e)
  | fuel + 1, m, e => if m % 10 = 0 then stripZeros fuel (m / 10) (e + 1) else (m, e)

/-- The canonical token of a number: zero is `0`, otherwise the mantissa has no
trailing zero digit. Two tokens denote the same number exactly when their
canonical tokens are equal. -/
def JNumber.normalize (n : JNumber) : JNumber :=
  if n.mant = 0 then ⟨false, 0, 0⟩
  else
    let r := stripZeros (bitLen n.mant) n.mant n.exp
    ⟨n.neg, r.1, r.2⟩

/-- A number survives the trip through `float64`: it is in range, and the decimal
written for the `float64` it rounds to denotes the same number. -/
def JNumber.stable (n : JNumber) : Bool :=
  match parseFloat n with
  | some f => (formatFloat f).normalize == n.normalize
  | none => false

/-! ## `encoding/json`: decoding -/

/-- The errors `json.Unmarshal` returns: `*SyntaxError` (from `checkValid`, before
anything is stored) and `*UnmarshalTypeError` (saved while decoding goes on). Of
an `UnmarshalTypeError` the fields `Value` and `Type` are kept; `Offset`, `Struct`
and `Field` are not modelled. -/
inductive JsonError where
  /-- A `*SyntaxError`. -/
  | invalid : JsonError
  /-- An `*UnmarshalTypeError` with the given `Value` (`"string"`, `"number"`,
  `"bool"`, `"array"`, `"object"`) and `Type`. -/
  | unmarshalType (value : String) (goType : String) : JsonError
  /-- The `*UnmarshalTypeError` of `convertNumber`: `Value` is `"number "` followed
  by the text of the number token `n`, `Type` is `float64`. -/
  | numberRange (n : JNumber) : JsonError
  deriving DecidableEq, Repr

/-- A value of type `interface{}` as the decoder produces it: `nil`, `bool`,
`float64`, `string`, `[]interface{}` or `map[string]interface{}`. A map is kept as
an association list with distinct keys. -/
inductive GoVal where
  | nil : GoVal
  | bool (b : Bool) : GoVal
  | float64 (f : F64) : GoVal
  | string (s : String) : GoVal
  | slice (xs : List GoVal) : GoVal
  | map (m : List (String × GoVal)) : GoVal
  deriving Repr

/-- A Go slice header over its backing array: `store` holds every slot that was
ever written (slots past it are zero), `len` is the slice length. Elements past
`len` are stale values a later decode can see again. -/
structure GoSlice where
  store : List GoVal
  len : Nat
  deriving Repr

/-- The elements of a slice. -/
def GoSlice.elems (s : GoSlice) : List GoVal := s.store.take s.len

/-- The struct `ConversionData`; `none` is the nil map or the nil slice. -/
structure ConversionData where
  LastUpdated : String
  DataSource : String
  Config : Option (List (String × GoVal))
  Programs : Option (List (String × GoVal))
  Conversions : Option GoSlice
  deriving Repr

/-- The value of `&ConversionData{}`. -/
def ConversionData.zero : ConversionData := ⟨"", "", none, none, none⟩

/-- The first saved error wins (`decodeState.saveError`). -/
def firstError (a b : Option JsonError) : Option JsonError :=
  match a with
  | some e => some e
  | none => b

/-- The map assignment `m[k] = v`. -/
def mapSet {α : Type} (k : String) (v : α) : List (String × α) → List (String × α)
  | [] => [(k, v)]
  | (k', v') :: rest => if k' = k then (k, v) :: rest else (k', v') :: mapSet k v rest

/-- Assign the pairs to `m` one after the other, in order. -/
def mapSetAll {α : Type} (m : List (String × α)) : List (String × α) → List (String × α)
  | [] => m
  | (k, v) :: rest => mapSetAll (mapSet k v m) rest

mutual
/-- The method `decodeState.valueInterface`: decode a value into a fresh
`interface{}`. A number that `ParseFloat` rejects saves an error and yields `nil`. -/
def valueInterface : JSON → GoVal × Option JsonError
  | .null => (.nil, none)
  | .bool b => (.bool b, none)
  | .num n =>
    match parseFloat n with
    | some f => (.float64 f, none)
    | none => (.nil, some (.numberRange n))
  | .str s => (.string s, none)
  | .arr xs => ((GoVal.slice (arrayInterface xs).1), (arrayInterface xs).2)
  | .obj kvs => ((GoVal.map (mapSetAll [] (objectInterface kvs).1)), (objectInterface kvs).2)
/-- The method `decodeState.arrayInterface`: the elements in order. -/
def arrayInterface : List JSON → List GoVal × Option JsonError
  | [] => ([], none)
  | x :: xs =>
    ((valueInterface x).1 :: (arrayInterface xs).1,
      firstError (valueInterface x).2 (arrayInterface xs).2)
/-- The members of `decodeState.objectInterface` in document order, each value
decoded; the map is built from them by `mapSetAll`. -/
def objectInterface : List (String × JSON) → List (String × GoVal) × Option JsonError
  | [] => ([], none)
  | (k, v) :: rest =>
    ((k, (valueInterface v).1) :: (objectInterface rest).1,
      firstError (valueInterface v).2 (objectInterface rest).2)
end

/-- Decode a value into an existing slice element of type `interface{}`
(`decodeState.value` on `v.Index(i)`): the element is overwritten, except that a
number `ParseFloat` rejects leaves the old element in place (`literalStore`
breaks before `v.Set`). -/
def valueInto (old : GoVal) (j : JSON) : GoVal × Option JsonError :=
  match j with
  | .num n =>
    match parseFloat n with
    | some f => (.float64 f, none)
    | none => (old, some (.numberRange n))
  | other => valueInterface other

/-- The loop of `decodeState.array` on a slice: element `i` is decoded into slot
`i` of the backing array; slots past the last element keep their stale values. -/
def arrayInto : List GoVal → List JSON → List GoVal × Option JsonError
  | store, [] => (store, none)
  | [], x :: xs =>
    ((valueInto .nil x).1 :: (arrayInto [] xs).1,
      firstError (valueInto .nil x).2 (arrayInto [] xs).2)
  | o :: store, x :: xs =>
    ((valueInto o x).1 :: (arrayInto store xs).1,
      firstError (valueInto o x).2 (arrayInto store xs).2)

/-- The `Value` string of an `UnmarshalTypeError` for a document. -/
def jsonKind : JSON → String
  | .null => "null"
  | .bool _ => "bool"
  | .num _ => "number"
  | .str _ => "string"
  | .arr _ => "array"
  | .obj _ => "object"

/-- Decoding into a field of Go type `string`. -/
def storeString (j : JSON) (old : String) : String × Option JsonError :=
  match j with
  | .str s => (s, none)
  | .null => (old, none)
  | other => (old, some (.unmarshalType (jsonKind other) "string"))

/-- Decoding into a field of Go type `map[string]interface{}`: an object is
assigned member by member into the existing map (a nil map is made first),
`null` sets the nil map, anything else is a type error. -/
def storeMap (j : JSON) (old : Option (List (String × GoVal))) :
    Option (List (String × GoVal)) × Option JsonError :=
  match j with
  | .obj kvs => (some (mapSetAll (old.getD []) (objectInterface kvs).1), (objectInterface kvs).2)
  | .null => (none, none)
  | other => (old, some (.unmarshalType (jsonKind other) "map[string]interface \x7b\x7d"))

/-- Decoding into a field of Go type `[]interface{}`: an array is decoded in
place over the backing array and the slice cut to its length (a fresh empty slice
for `[]`), `null` sets the nil slice, anything else is a type error. -/
def storeSlice (j : JSON) (old : Option GoSlice) : Option GoSlice × Option JsonError :=
  match j with
  | .arr [] => (some ⟨[], 0⟩, none)
  | .arr (x :: xs) =>
    (some ⟨(arrayInto ((old.map GoSlice.store).getD []) (x :: xs)).1, (x :: xs).length⟩,
      (arrayInto ((old.map GoSlice.store).getD []) (x :: xs)).2)
  | .null => (none, none)
  | other => (old, some (.unmarshalType (jsonKind other) "[]interface \x7b\x7d"))

/-- The five fields of `ConversionData`. -/
inductive Field where
  | lastUpdated | dataSource | config | programs | conversions
  deriving DecidableEq, Repr

/-- The `json:"..."` tag of a field. -/
def Field.name : Field → String
  | .lastUpdated => "lastUpdated"
  | .dataSource => "dataSource"
  | .config => "config"
  | .programs => "programs"
  | .conversions => "conversions"

/-- The fields in declaration order. -/
def Field.all : List Field :=
  [.lastUpdated, .dataSource, .config, .programs, .conversions]

/-- The function `foldRune` of `encoding/json/fold.go` as far as it can reach an
ASCII letter: ASCII lower case goes to upper case, U+017F (long s) to `S`,
U+212A (Kelvin sign) to `K`. Other runes are left alone; they never fold to
ASCII, and the field names are ASCII. -/
def foldRune (c : Char) : Char :=
  if 97 ≤ c.toNat ∧ c.toNat ≤ 122 then Char.ofNat (c.toNat - 32)
  else if c.toNat = 0x17F then 'S'
  else if c.toNat = 0x212A then 'K'
  else c

/-- The function `foldName`: the key used for case-insensitive field lookup. -/
def foldName (s : String) : List Char := s.data.map foldRune

/-- Field lookup of `decodeState.object` on a struct: an exact match of the tag
first, then a match of the folded names. -/
def findField (key : String) : Option Field :=
  match Field.all.find? (fun f => decide (f.name = key)) with
  | some f => some f
  | none => Field.all.find? (fun f => decide (foldName f.name = foldName key))

/-- Decode one member value into field `f` of the struct. -/
def setField (f : Field) (j : JSON) (v : ConversionData) : ConversionData × Option JsonError :=
  match f with
  | .lastUpdated => ({ v with LastUpdated := (storeString j v.LastUpdated).1 },
      (storeString j v.LastUpdated).2)
  | .dataSource => ({ v with DataSource := (storeString j v.DataSource).1 },
      (storeString j v.DataSource).2)
  | .config => ({ v with Config := (storeMap j v.Config).1 }, (storeMap j v.Config).2)
  | .programs => ({ v with Programs := (storeMap j v.Programs).1 }, (storeMap j v.Programs).2)
  | .conversions => ({ v with Conversions := (storeSlice j v.Conversions).1 },
      (storeSlice j v.Conversions).2)

/-- The loop of `decodeState.object` on the struct: members in document order;
a key that matches no field is skipped. -/
def decodeMembers : List (String × JSON) → ConversionData → ConversionData × Option JsonError
  | [], v => (v, none)
  | (k, j) :: rest, v =>
    match findField k with
    | some f =>
      ((decodeMembers rest (setField f j v).1).1,
        firstError (setField f j v).2 (decodeMembers rest (setField f j v).1).2)
    | none => decodeMembers rest v

/-- The method `decodeState.value` at the root, the target being the struct: an
object is decoded member by member, `null` has no effect and is no error, any
other value is a type error. -/
def unmarshalRoot (j : JSON) (v : ConversionData) : ConversionData × Option JsonError :=
  match j with
  | .obj kvs => decodeMembers kvs v
  | .null => (v, none)
  | other => (v, some (.unmarshalType (jsonKind other) "main.ConversionData"))

/-- The bytes of a file: not a JSON text, or the JSON text of a document. -/
inductive FileContent where
  | malformed : FileContent
  | json (doc : JSON) : FileContent
  deriving Repr

/-- The call `json.Unmarshal(data, v)` with `v : *ConversionData`: `checkValid`
first (it also rejects nesting deeper than `maxNestingDepth`), then the decode. -/
def unmarshal (data : FileContent) (v : ConversionData) : ConversionData × Option JsonError :=
  match data with
  | .malformed => (v, some .invalid)
  | .json doc =>
    if maxNestingDepth < doc.depth then (v, some .invalid) else unmarshalRoot doc v

/-! ## `encoding/json`: encoding -/

/-- Lexicographic order on code point sequences. -/
def codeLe : List Nat → List Nat → Bool
  | [], _ => true
  | _ :: _, [] => false
  | a :: as, b :: bs => if a < b then true else if b < a then false else codeLe as bs

/-- The order `encoding/json` sorts map keys by: byte-wise on the UTF-8 encoding,
which is the order of the code point sequences. -/
def keyLe (a b : String) : Bool :=
  codeLe (a.data.map Char.toNat) (b.data.map Char.toNat)

/-- Sort members by key. -/
def sortByKey {α : Type} (l : List (String × α)) : List (String × α) :=
  l.insertionSort (fun a b => keyLe a.1 b.1 = true)

mutual
/-- The JSON text `json.Marshal` writes for an `interface{}` value, as a parse
tree: map keys sorted, a `float64` in its shortest decimal form. -/
def marshalValue : GoVal → JSON
  | .nil => .null
  | .bool b => .bool b
  | .float64 f => .num (formatFloat f)
  | .string s => .str s
  | .slice xs => .arr (marshalList xs)
  | .map m => .obj (sortByKey (marshalMembers m))
/-- Marshal the elements of a slice. -/
def marshalList : List GoVal → List JSON
  | [] => []
  | x :: xs => marshalValue x :: marshalList xs
/-- Marshal the values of a map. -/
def marshalMembers : List (String × GoVal) → List (String × JSON)
  | [] => []
  | (k, v) :: rest => (k, marshalValue v) :: marshalMembers rest
end

/-- Marshal a field of type `map[string]interface{}`; the nil map is `null`. -/
def marshalMapField : Option (List (String × GoVal)) → JSON
  | none => .null
  | some m => .obj (sortByKey (marshalMembers m))

/-- Marshal a field of type `[]interface{}`; the nil slice is `null`. -/
def marshalSliceField : Option GoSlice → JSON
  | none => .null
  | some s => .arr (marshalList s.elems)

/-- The value of field `f` in the marshalled struct. -/
def marshalField (f : Field) (v : ConversionData) : JSON :=
  match f with
  | .lastUpdated => .str v.LastUpdated
  | .dataSource => .str v.DataSource
  | .config => marshalMapField v.Config
  | .programs => marshalMapField v.Programs
  | .conversions => marshalSliceField v.Conversions

/-- The JSON text `json.Marshal` writes for a `*ConversionData`: every field, in
declaration order, under its tag (no field has `omitempty`). -/
def marshalStruct (v : ConversionData) : JSON :=
  .obj (Field.all.map (fun f => (f.name, marshalField f v)))

/-! ## Equality of JSON documents -/

mutual
/-- The canonical form of a document: numbers as canonical tokens, object members
sorted by key with the last of several equal keys kept. Two documents are
semantically equal when their canonical forms are equal. -/
def canon : JSON → JSON
  | .null => .null
  | .bool b => .bool b
  | .num n => .num n.normalize
  | .str s => .str s
  | .arr xs => .arr (canonList xs)
  | .obj kvs => .obj (sortByKey (mapSetAll [] (canonMembers kvs)))
/-- Canonical forms of the elements of an array, in order. -/
def canonList : List JSON → List JSON
  | [] => []
  | x :: xs => canon x :: canonList xs
/-- Canonical forms of the member values of an object, in order. -/
def canonMembers : List (String × JSON) → List (String × JSON)
  | [] => []
  | (k, v) :: rest => (k, canon v) :: canonMembers rest
end

mutual
/-- Every number in the document survives the trip through `float64`. -/
def JSON.stable : JSON → Bool
  | .num n => n.stable
  | .arr xs => stableList xs
  | .obj kvs => stableMembers kvs
  | _ => true
/-- Every number in the array elements is stable. -/
def stableList : List JSON → Bool
  | [] => true
  | x :: xs => x.stable && stableList xs
/-- Every number in the member values is stable. -/
def stableMembers : List (String × JSON) → Bool
  | [] => true
  | (_, v) :: rest => v.stable && stableMembers rest
end

/-! ## `os`: the file system -/

/-- What the file system holds at a path. -/
inductive FileState where
  /-- Nothing there: `Stat` and `ReadFile` fail with `ENOENT`. -/
  | notExist : FileState
  /-- The path cannot be examined (say `EACCES` on a directory of the path):
  `Stat` and `ReadFile` fail with an error that is not `ENOENT`. -/
  | noAccess : FileState
  /-- Something `Stat` finds but `ReadFile` cannot read (a directory, a file
  without read permission). -/
  | unreadable : FileState
  /-- A readable file with these bytes. -/
  | file (data : FileContent) : FileState
  deriving Repr

/-- A file system: the state at every path (relative to the working directory). -/
abbrev FileSystem := String → FileState

/-- The errors of `os.Stat` and `os.ReadFile`. -/
inductive OsError where
  | notExist : OsError
  | other : OsError
  deriving DecidableEq, Repr

/-- The error of `os.Stat(path)`, `none` when it succeeds. -/
def osStat (fs : FileSystem) (path : String) : Option OsError :=
  match fs path with
  | .notExist => some .notExist
  | .noAccess => some .other
  | .unreadable => none
  | .file _ => none

/-- The predicate `os.IsNotExist(err)`. -/
def osIsNotExist : Option OsError → Bool
  | some .notExist => true
  | _ => false

/-- The call `os.ReadFile(path)`. -/
def osReadFile (fs : FileSystem) (path : String) : Except OsError FileContent :=
  match fs path with
  | .notExist => .error .notExist
  | .noAccess => .error .other
  | .unreadable => .error .other
  | .file data => .ok data

/-! ## `loadConversionData` -/

/-- The error value `loadConversionData` returns: the one of `os.ReadFile` or
the one of `json.Unmarshal`. -/
inductive LoadError where
  | read (e : OsError) : LoadError
  | decode (e : JsonError) : LoadError
  deriving DecidableEq, Repr

/-- A line written with `log.Printf` or `log.Fatalf`. -/
inductive LogLine where
  /-- `Loaded conversion data: %d programs, %d conversions` -/
  | loaded (programs conversions : Nat) : LogLine
  /-- `Failed to load conversion data: %v` -/
  | failedToLoad (e : LoadError) : LogLine
  /-- `Starting API server on port %s` -/
  | starting (port : String) : LogLine
  deriving Repr

/-- The state of the process: the package variable `conversionData` (`none` is
the nil pointer), the log, and the paths passed to `os.ReadFile` so far. -/
structure Process where
  conversionData : Option ConversionData
  log : List LogLine
  reads : List String
  deriving Repr

/-- The process at the start of `main`. -/
def Process.start : Process := ⟨none, [], []⟩

/-- The first candidate path. -/
def containerPath : String := "conversions.json"

/-- The second candidate path, `filepath.Join("..", "public", "data", "conversions.json")`. -/
def localDevPath : String := "../public/data/conversions.json"

/-- The value of `dataPath` when `os.ReadFile` is called: the first candidate,
replaced by the second when `os.Stat` of the first reports that it does not exist. -/
def dataPath (fs : FileSystem) : String :=
  if osIsNotExist (osStat fs containerPath) then localDevPath else containerPath

/-- The length `len(m)` of a map field. -/
def lenMap : Option (List (String × GoVal)) → Nat
  | none => 0
  | some m => m.length

/-- The length `len(s)` of a slice field. -/
def lenSlice : Option GoSlice → Nat
  | none => 0
  | some s => s.len

/-- The function `loadConversionData`: the new process state and the returned
error (`none` is the nil error). -/
def loadConversionData (fs : FileSystem) (p : Process) : Process × Option LoadError :=
  match osReadFile fs (dataPath fs) with
  | .error e => ({ p with reads := p.reads ++ [dataPath fs] }, some (.read e))
  | .ok data =>
    match (unmarshal data ConversionData.zero).2 with
    | some e =>
      ({ p with conversionData := some (unmarshal data ConversionData.zero).1,
                reads := p.reads ++ [dataPath fs] }, some (.decode e))
    | none =>
      ({ conversionData := some (unmarshal data ConversionData.zero).1,
         log := p.log ++ [.loaded (lenMap (unmarshal data ConversionData.zero).1.Programs)
                                  (lenSlice (unmarshal data ConversionData.zero).1.Conversions)],
         reads := p.reads ++ [dataPath fs] }, none)

/-! ## `gin`: responses and handlers -/

/-- The body of a response. -/
inductive Body where
  | empty : Body
  | json (doc : JSON) : Body
  | text (s : String) : Body
  deriving Repr

/-- What has been written to the response so far by the handler chain of a
request (`gin.Context` and its `ResponseWriter`). -/
structure Context where
  status : Nat
  headers : List (String × List String)
  body : Body
  aborted : Bool
  deriving Repr

/-- The context a request starts with: status 200, nothing written. -/
def Context.new : Context := ⟨200, [], .empty, false⟩

/-- The call `header[key] = values`. -/
def Context.setHeader (c : Context) (key : String) (values : List String) : Context :=
  { c with headers := c.headers.filter (fun h => h.1 != key) ++ [(key, values)] }

/-- The call `Header.Get(key)` on the response: the first value, if any. -/
def Context.header (c : Context) (key : String) : Option String :=
  match c.headers.lookup key with
  | some (v :: _) => some v
  | _ => none

/-- The call `c.JSON(code, obj)`, `doc` being the marshalled `obj`. -/
def Context.JSON (c : Context) (code : Nat) (doc : JSON) : Context :=
  { (c.setHeader "Content-Type" ["application/json; charset=utf-8"]) with
    status := code, body := .json doc }

/-- The call `c.AbortWithStatus(code)`. -/
def Context.abortWithStatus (c : Context) (code : Nat) : Context :=
  { c with status := code, aborted := true }

/-- The handler `getConversions`: the process state after it, and the context. -/
def getConversions (p : Process) (c : Context) : Process × Context :=
  match p.conversionData with
  | none => (p, c.JSON 500 (marshalValue (.map [("error", .string "Conversion data not loaded")])))
  | some d => (p, c.JSON 200 (marshalStruct d))

/-- The handler `getHealth`: the process state after it, and the context. -/
def getHealth (p : Process) (c : Context) : Process × Context :=
  (p, c.JSON 200 (marshalValue (.map [("status", .string "healthy"),
    ("message", .string "Points Converter API is running")])))

/-! ## `gin-contrib/cors` -/

/-- The fields of `cors.Config` the program leaves at or sets from
`cors.DefaultConfig()`; `MaxAge` is in seconds. -/
structure CorsConfig where
  AllowAllOrigins : Bool
  AllowOrigins : List String
  AllowMethods : List String
  AllowHeaders : List String
  AllowCredentials : Bool
  ExposeHeaders : List String
  MaxAge : Nat
  deriving Repr

/-- The value of `cors.DefaultConfig()`. -/
def defaultConfig : CorsConfig :=
  { AllowAllOrigins := false
    AllowOrigins := []
    AllowMethods := ["GET", "POST", "PUT", "PATCH", "DELETE", "HEAD", "OPTIONS"]
    AllowHeaders := ["Origin", "Content-Length", "Content-Type"]
    AllowCredentials := false
    ExposeHeaders := []
    MaxAge := 43200 }

/-- The configuration `main` passes to `cors.New`. -/
def corsConfig : CorsConfig :=
  { defaultConfig with
    AllowOrigins := ["https://points-converter.com", "http://localhost:5173",
      "http://localhost:4173"]
    AllowMethods := ["GET", "POST", "PUT", "DELETE", "OPTIONS"]
    AllowHeaders := ["Origin", "Content-Type", "Accept", "Authorization"] }

/-- ASCII lower case of a character. -/
def lowerChar (c : Char) : Char :=
  if 65 ≤ c.toNat ∧ c.toNat ≤ 90 then Char.ofNat (c.toNat + 32) else c

/-- ASCII upper case of a character. -/
def upperChar (c : Char) : Char :=
  if 97 ≤ c.toNat ∧ c.toNat ≤ 122 then Char.ofNat (c.toNat - 32) else c

/-- ASCII white space. -/
def isSpace (c : Char) : Bool :=
  c.toNat = 32 || (9 ≤ c.toNat && c.toNat ≤ 13)

/-- The function `strings.TrimSpace` (ASCII white space). -/
def trimSpace (s : String) : String :=
  ⟨((s.data.dropWhile isSpace).reverse.dropWhile isSpace).reverse⟩

/-- The function `strings.ToLower` on ASCII text. -/
def toLower (s : String) : String := ⟨s.data.map lowerChar⟩

/-- The function `strings.ToUpper` on ASCII text. -/
def toUpper (s : String) : String := ⟨s.data.map upperChar⟩

/-- Upper case the first letter and every letter after a hyphen, lower case the rest. -/
def canonicalChars : Bool → List Char → List Char
  | _, [] => []
  | up, c :: cs => (if up then upperChar c else lowerChar c) :: canonicalChars (c = '-') cs

/-- The function `http.CanonicalHeaderKey` on a header name. -/
def canonicalHeaderKey (s : String) : String := ⟨canonicalChars true s.data⟩

/-- The helper `normalize` of the middleware: trim, lower case, drop repeats. -/
def normalize (values : List String) : List String :=
  (values.map (fun v => toLower (trimSpace v))).eraseDups

/-- The function `generatePreflightHeaders`. -/
def preflightHeaders (cfg : CorsConfig) : List (String × List String) :=
  (if cfg.AllowCredentials then [("Access-Control-Allow-Credentials", ["true"])] else []) ++
  (if cfg.AllowMethods.isEmpty then []
   else [("Access-Control-Allow-Methods",
          [String.intercalate "," ((normalize cfg.AllowMethods).map toUpper)])]) ++
  (if cfg.AllowHeaders.isEmpty then []
   else [("Access-Control-Allow-Headers",
          [String.intercalate "," ((normalize cfg.AllowHeaders).map canonicalHeaderKey)])]) ++
  (if 0 < cfg.MaxAge then [("Access-Control-Max-Age", [toString cfg.MaxAge])] else []) ++
  (if cfg.AllowAllOrigins then [("Access-Control-Allow-Origin", ["*"])]
   else [("Vary", ["Origin", "Access-Control-Request-Method",
                   "Access-Control-Request-Headers"])])

/-- The function `generateNormalHeaders`. -/
def normalHeaders (cfg : CorsConfig) : List (String × List String) :=
  (if cfg.AllowCredentials then [("Access-Control-Allow-Credentials", ["true"])] else []) ++
  (if cfg.ExposeHeaders.isEmpty then []
   else [("Access-Control-Expose-Headers",
          [String.intercalate "," ((normalize cfg.ExposeHeaders).map canonicalHeaderKey)])]) ++
  (if cfg.AllowAllOrigins then [("Access-Control-Allow-Origin", ["*"])]
   else [("Vary", ["Origin"])])

/-- The method `validateOrigin`: exact comparison with the normalized list. -/
def validateOrigin (cfg : CorsConfig) (origin : String) : Bool :=
  cfg.AllowAllOrigins || (normalize cfg.AllowOrigins).contains origin

/-- A request as the middleware and the router read it: method, URL path,
`Request.Host`, and the values `Header.Get` returns for `Origin` and
`Access-Control-Request-Method` (the empty string for a missing header). -/
structure Request where
  method : String
  path : String
  host : String
  origin : String
  requestMethod : String
  deriving Repr

/-- Copy headers into the response (`header[key] = value` for each). -/
def Context.setHeaders (c : Context) : List (String × List String) → Context
  | [] => c
  | (k, vs) :: rest => (c.setHeader k vs).setHeaders rest

/-- The method `applyCors`: a request without `Origin`, or whose `Origin` is
`http://` or `https://` followed by its own `Host`, passes untouched; an origin
that is not allowed is aborted with 403; an `OPTIONS` request gets the preflight
headers and is aborted with the options status (204); any other request gets the
normal headers. In the last two cases `Access-Control-Allow-Origin` is set to the
origin. -/
def applyCors (cfg : CorsConfig) (req : Request) (c : Context) : Context :=
  if req.origin = "" then c
  else if req.origin = "http://" ++ req.host ∨ req.origin = "https://" ++ req.host then c
  else if !validateOrigin cfg req.origin then c.abortWithStatus 403
  else if req.method = "OPTIONS" then
    ((if cfg.AllowAllOrigins then c.setHeaders (preflightHeaders cfg)
      else (c.setHeaders (preflightHeaders cfg)).setHeader "Access-Control-Allow-Origin"
        [req.origin]).abortWithStatus 204)
  else
    (if cfg.AllowAllOrigins then c.setHeaders (normalHeaders cfg)
     else (c.setHeaders (normalHeaders cfg)).setHeader "Access-Control-Allow-Origin"
       [req.origin])

/-! ## The router and `main` -/

/-- The two handlers registered under `/api/v1`. -/
inductive Route where
  | conversions | health
  deriving DecidableEq, Repr

/-- The `GET` route a path names. -/
def routeOf (path : String) : Option Route :=
  if path = "/api/v1/conversions" then some .conversions
  else if path = "/api/v1/health" then some .health
  else none

/-- The path a `GET` request is redirected to by `RedirectTrailingSlash`. -/
def trailingSlashTarget (path : String) : Option String :=
  if path = "/api/v1/conversions/" then some "/api/v1/conversions"
  else if path = "/api/v1/health/" then some "/api/v1/health"
  else none

/-- The no-route chain: status 404, the middleware, and the plain 404 body unless
the middleware has written the response. -/
def noRoute (p : Process) (req : Request) : Process × Context :=
  if (applyCors corsConfig req { Context.new with status := 404 }).aborted then
    (p, applyCors corsConfig req { Context.new with status := 404 })
  else
    (p, { (applyCors corsConfig req { Context.new with status := 404 }).setHeader
            "Content-Type" ["text/plain"] with body := .text "404 page not found" })

/-- The engine as `main` assembles it, serving one request: the middleware runs
first on every chain; the handler runs unless the middleware aborted. Requests
are taken without an `X-Forwarded-Prefix` header. -/
def serveHTTP (p : Process) (req : Request) : Process × Context :=
  if req.method = "GET" then
    match routeOf req.path with
    | some r =>
      if (applyCors corsConfig req Context.new).aborted then
        (p, applyCors corsConfig req Context.new)
      else
        match r with
        | .conversions => getConversions p (applyCors corsConfig req Context.new)
        | .health => getHealth p (applyCors corsConfig req Context.new)
    | none =>
      match trailingSlashTarget req.path with
      | some target => (p, { (Context.new.setHeader "Location" [target]) with status := 301 })
      | none => noRoute p req
  else noRoute p req

/-- How `main` ends up: `log.Fatalf` (exit status 1), or serving on a port. -/
inductive Outcome where
  | fatal (p : Process) : Outcome
  | serving (p : Process) (port : String) : Outcome
  deriving Repr

/-- The function `main`: `portEnv` is the value of `PORT` (empty when unset);
the listen socket is taken to bind. -/
def main (fs : FileSystem) (portEnv : String) : Outcome :=
  match (loadConversionData fs Process.start).2 with
  | some e =>
    .fatal { (loadConversionData fs Process.start).1 with
      log := (loadConversionData fs Process.start).1.log ++ [.failedToLoad e] }
  | none =>
    .serving { (loadConversionData fs Process.start).1 with
      log := (loadConversionData fs Process.start).1.log ++
        [.starting (if portEnv = "" then "8080" else portEnv)] }
      (if portEnv = "" then "8080" else portEnv)

/-! ## Vocabulary of the statements -/

/-- The top-level keys of a document, in order (none unless it is an object). -/
def JSON.keys : JSON → List String
  | .obj kvs => kvs.map Prod.fst
  | _ => []

/-- The value under a top-level key of a document (the first such member). -/
def JSON.get (k : String) : JSON → Option JSON
  | .obj kvs => kvs.lookup k
  | _ => none

/-- The body is a JSON text semantically equal to `doc`. -/
def Body.sameAs (b : Body) (doc : JSON) : Prop :=
  ∃ d, b = .json d ∧ canon d = canon doc

/-- The five recognised keys. -/
def recognisedKeys : List String := Field.all.map Field.name

/-- The JSON type the data model gives a recognised field. -/
def Field.accepts : Field → JSON → Bool
  | .lastUpdated, .str _ => true
  | .dataSource, .str _ => true
  | .config, .obj _ => true
  | .programs, .obj _ => true
  | .conversions, .arr _ => true
  | _, _ => false

/-- The members are exactly the five recognised keys, each once, each with a
value of its type. -/
def RecognisedShape (members : List (String × JSON)) : Prop :=
  (members.map Prod.fst).Nodup ∧
  (∀ f ∈ Field.all, f.name ∈ members.map Prod.fst) ∧
  (∀ kv ∈ members, ∃ f ∈ Field.all, f.name = kv.1 ∧ f.accepts kv.2 = true)

/-- What is served for a field the decoder never stored into: the zero value of
its Go type, marshalled. -/
def Field.zeroJSON : Field → JSON
  | .lastUpdated => .str ""
  | .dataSource => .str ""
  | .config => .null
  | .programs => .null
  | .conversions => .null

/-- The keys of the object under a top-level key of a document. -/
def JSON.keysAt (k : String) (j : JSON) : Option (List String) :=
  (j.get k).map JSON.keys

/-- The number that is the only element of the array under a top-level key. -/
def JSON.soleNumberAt (k : String) (j : JSON) : Option JNumber :=
  match j.get k with
  | some (.arr [.num n]) => some n
  | _ => none

/-- The root is a string, a number, a boolean or an array. -/
def JSON.isScalarOrArray : JSON → Bool
  | .str _ => true
  | .num _ => true
  | .bool _ => true
  | .arr _ => true
  | _ => false

/-- Split at commas. -/
def splitCommaAux : List Char → List Char → List String
  | acc, [] => [⟨acc.reverse⟩]
  | acc, c :: cs => if c = ',' then ⟨acc.reverse⟩ :: splitCommaAux [] cs
                    else splitCommaAux (c :: acc) cs

/-- The items of a comma-separated header value. -/
def splitComma (s : String) : List String := splitCommaAux [] s.data

/-- The request is same-origin in the eyes of the middleware: its `Origin` is
`http://` or `https://` followed by its own `Host`. -/
def Request.ownHost (req : Request) : Prop :=
  req.origin = "http://" ++ req.host ∨ req.origin = "https://" ++ req.host

/-! ## Concrete inputs -/

/-- A file system whose only file is `conversions.json` with the given bytes. -/
def fsWith (data : FileContent) : FileSystem := fun path =>
  if path = "conversions.json" then .file data else .notExist

/-- The first scenario of the specification, with some nested values added. -/
def membersScenario : List (String × JSON) :=
  [("lastUpdated", .str "2025-01-01"), ("dataSource", .str "x"), ("config", .obj []),
    ("programs", .obj [("b", .obj [("rate", .num ⟨false, 15, -1⟩)]), ("a", .obj [])]),
    ("conversions", .arr [.obj [("from", .str "a"), ("to", .str "b"),
      ("ratio", .num ⟨false, 1000, 0⟩), ("bonus", .null), ("live", .bool true)]])]

/-- The five recognised fields around one conversion entry. -/
def membersAround (entry : JSON) : List (String × JSON) :=
  [("lastUpdated", .str "2025-01-01"), ("dataSource", .str "x"), ("config", .obj []),
    ("programs", .obj []), ("conversions", .arr [entry])]

/-- The number `1e400`, larger than every `float64`. -/
def hugeNumber : JNumber := ⟨false, 1, 400⟩

/-- The integer `9007199254740993 = 2^53 + 1`, which no `float64` equals. -/
def oddInteger : JNumber := ⟨false, 9007199254740993, 0⟩

/-- Arrays nested `n` deep around `null`: `[[...[null]...]]`. -/
def deepArray : Nat → JSON
  | 0 => .null
  | n + 1 => .arr [deepArray n]

/-- The five recognised fields with `config` given a second time:
`"config": {"a": 1}` and, at the end, `"config": {"b": 2}`. -/
def membersTwice : List (String × JSON) :=
  [("lastUpdated", .str "2025-01-01"), ("dataSource", .str "x"),
    ("config", .obj [("a", .num ⟨false, 1, 0⟩)]), ("programs", .obj []),
    ("conversions", .arr []), ("config", .obj [("b", .num ⟨false, 2, 0⟩)])]

/-- A document whose `lastUpdated` is the given text, other fields missing. -/
def docMarked (mark : String) : FileContent :=
  .json (.obj [("lastUpdated", .str mark)])

/-- A file system with both candidate files present: `conversions.json` marked
`first`, `../public/data/conversions.json` marked `second`. -/
def fsBoth : FileSystem := fun path =>
  if path = "conversions.json" then .file (docMarked "first")
  else if path = "../public/data/conversions.json" then .file (docMarked "second")
  else .notExist

/-- A file system with only the second candidate file, marked `second`. -/
def fsLocalDev : FileSystem := fun path =>
  if path = "../public/data/conversions.json" then .file (docMarked "second")
  else .notExist

/-- The five recognised fields and one more, `"extra": 1`. -/
def membersExtra : List (String × JSON) :=
  [("lastUpdated", .str "2025-01-01"), ("dataSource", .str "x"), ("config", .obj []),
    ("programs", .obj []), ("conversions", .arr []), ("extra", .num ⟨false, 1, 0⟩)]

/-- The process `main` serves with in the first scenario (`PORT=9090`). -/
def servingScenario : Process :=
  match main (fsWith (.json (.obj membersScenario))) "9090" with
  | .serving p _ => p
  | .fatal p => p

/-- The preflight of scenario 6: `Origin: http://localhost:5173` sent to
`localhost:9090`. -/
def preflightDev : Request :=
  ⟨"OPTIONS", "/api/v1/conversions", "localhost:9090", "http://localhost:5173", "GET"⟩

/-- A preflight from the production origin to a server reached under the same
host name. -/
def preflightOwnHost : Request :=
  ⟨"OPTIONS", "/api/v1/conversions", "points-converter.com", "https://points-converter.com",
    "GET"⟩

/-- The request of scenario 3: `Origin: https://evil.example`. -/
def requestEvil : Request :=
  ⟨"GET", "/api/v1/conversions", "localhost:9090", "https://evil.example", ""⟩

/-! ## The loader -/

/-- Every call of `loadConversionData` passes exactly one path to `os.ReadFile`. -/
theorem load_reads (fs : FileSystem) (p : Process) :
    (loadConversionData fs p).1.reads = p.reads ++ [dataPath fs] := by
  unfold loadConversionData
  cases osReadFile fs (dataPath fs) with
  | error e => rfl
  | ok data =>
    cases h : (unmarshal data ConversionData.zero).2 <;> simp [h]

/-- When `os.Stat` finds the first candidate, it is the path read. -/
theorem dataPath_of_exists (fs : FileSystem) (h : osStat fs containerPath = none) :
    dataPath fs = containerPath := by
  simp [dataPath, h, osIsNotExist]

/-- The second candidate is read exactly when the first does not exist. -/
theorem dataPath_eq_localDev (fs : FileSystem) :
    dataPath fs = localDevPath ↔ fs containerPath = .notExist := by
  unfold dataPath osStat
  cases h : fs containerPath <;> simp [osIsNotExist, containerPath, localDevPath]

/-- The two ways `loadConversionData` goes: the read fails and nothing is
published, or the read succeeds and whatever `json.Unmarshal` left in the fresh
struct is published. -/
theorem load_cases (fs : FileSystem) (p : Process) :
    (∃ r, osReadFile fs (dataPath fs) = .error r ∧
      (loadConversionData fs p).2 = some (.read r) ∧
      (loadConversionData fs p).1.conversionData = p.conversionData) ∨
    (∃ data, osReadFile fs (dataPath fs) = .ok data ∧
      (loadConversionData fs p).2 = (unmarshal data ConversionData.zero).2.map LoadError.decode ∧
      (loadConversionData fs p).1.conversionData = some (unmarshal data ConversionData.zero).1) := by
  unfold loadConversionData
  cases hr : osReadFile fs (dataPath fs) with
  | error e => exact Or.inl ⟨e, rfl, rfl, rfl⟩
  | ok data =>
    refine Or.inr ⟨data, rfl, ?_⟩
    cases hu : (unmarshal data ConversionData.zero).2 <;> simp [hu]

/-- A load that returns nil has read a file, decoded it without error and
published the result. -/
theorem load_ok_publishes (fs : FileSystem) (p : Process)
    (h : (loadConversionData fs p).2 = none) :
    ∃ data, osReadFile fs (dataPath fs) = .ok data ∧
      (unmarshal data ConversionData.zero).2 = none ∧
      (loadConversionData fs p).1.conversionData = some (unmarshal data ConversionData.zero).1 := by
  rcases load_cases fs p with ⟨r, _, he, _⟩ | ⟨data, hr, he, hc⟩
  · rw [h] at he
    cases he
  · refine ⟨data, hr, ?_, hc⟩
    rw [h] at he
    cases hu : (unmarshal data ConversionData.zero).2 with
    | none => rfl
    | some e => simp [hu] at he

/-- A load error makes `main` end in `log.Fatalf`. -/
theorem main_fatal (fs : FileSystem) (portEnv : String) (e : LoadError)
    (h : (loadConversionData fs Process.start).2 = some e) :
    ∃ q, main fs portEnv = .fatal q := by
  simp [main, h]

/-- When `main` serves, the load returned nil and the dataset is published. -/
theorem main_serving (fs : FileSystem) (portEnv port : String) (p : Process)
    (h : main fs portEnv = .serving p port) :
    (loadConversionData fs Process.start).2 = none ∧
    ∃ d, p.conversionData = some d := by
  unfold main at h
  cases hl : (loadConversionData fs Process.start).2 with
  | some e => simp [hl] at h
  | none =>
    simp only [hl, Outcome.serving.injEq] at h
    obtain ⟨hp, _⟩ := h
    subst hp
    obtain ⟨data, _, _, hc⟩ := load_ok_publishes fs Process.start hl
    exact ⟨rfl, _, hc⟩

/-- The body `getConversions` writes when the dataset is published. -/
theorem getConversions_body (p : Process) (c : Context) (d : ConversionData)
    (h : p.conversionData = some d) :
    (getConversions p c).2.status = 200 ∧
    (getConversions p c).2.body = .json (marshalStruct d) := by
  simp [getConversions, h, Context.JSON]

/-- The body of the 500 response. -/
theorem errorBody_eq :
    marshalValue (.map [("error", .string "Conversion data not loaded")]) =
      .obj [("error", .str "Conversion data not loaded")] := by
  rfl

/-- Unless `os.Stat` reports that the first candidate does not exist, it is the
path read. -/
theorem dataPath_of_ne (fs : FileSystem) (h : fs containerPath ≠ .notExist) :
    dataPath fs = containerPath := by
  unfold dataPath osStat
  cases hc : fs containerPath <;> simp_all [osIsNotExist]

/-- A load that finds a readable file at the chosen path publishes what
`json.Unmarshal` makes of the bytes of that file. -/
theorem load_of_file (fs : FileSystem) (p : Process) (data : FileContent)
    (h : fs (dataPath fs) = .file data) :
    (loadConversionData fs p).2 = (unmarshal data ConversionData.zero).2.map LoadError.decode ∧
    (loadConversionData fs p).1.conversionData = some (unmarshal data ConversionData.zero).1 := by
  have hr : osReadFile fs (dataPath fs) = .ok data := by simp [osReadFile, h]
  rcases load_cases fs p with ⟨r, hr', _, _⟩ | ⟨data', hr', he, hc⟩
  · rw [hr] at hr'
    cases hr'
  · rw [hr] at hr'
    cases hr'
    exact ⟨he, hc⟩

/-- A load whose read fails returns the read error and publishes nothing. -/
theorem load_of_error (fs : FileSystem) (p : Process) (e : OsError)
    (h : osReadFile fs (dataPath fs) = .error e) :
    (loadConversionData fs p).2 = some (.read e) ∧
    (loadConversionData fs p).1.conversionData = p.conversionData := by
  rcases load_cases fs p with ⟨r, hr', he, hc⟩ | ⟨data', hr', _, _⟩
  · rw [h] at hr'
    cases hr'
    exact ⟨he, hc⟩
  · rw [h] at hr'
    cases hr'

/-- C5: path resolution follows the ordered candidate list and stops at the first
that exists. Unless `conversions.json` does not exist, it is the one path passed
to `os.ReadFile` and what is published is decoded from its bytes, whatever is at
the second path (an unreadable first path is an error that publishes nothing).
When `conversions.json` does not exist, `../public/data/conversions.json` is the
one path read and what is published is decoded from its bytes; the second path
is read only in that case. When neither exists the load returns the not-exist
error and `conversionData` is left as it was. -/
theorem C5_path_resolution (fs : FileSystem) (p : Process) :
    (fs containerPath ≠ .notExist →
      (loadConversionData fs p).1.reads = p.reads ++ [containerPath] ∧
      (∀ data, fs containerPath = .file data →
        (loadConversionData fs p).2 =
          (unmarshal data ConversionData.zero).2.map LoadError.decode ∧
        (loadConversionData fs p).1.conversionData =
          some (unmarshal data ConversionData.zero).1) ∧
      (fs containerPath = .unreadable ∨ fs containerPath = .noAccess →
        (loadConversionData fs p).2 = some (.read .other) ∧
        (loadConversionData fs p).1.conversionData = p.conversionData)) ∧
    (fs containerPath = .notExist →
      (loadConversionData fs p).1.reads = p.reads ++ [localDevPath] ∧
      (∀ data, fs localDevPath = .file data →
        (loadConversionData fs p).2 =
          (unmarshal data ConversionData.zero).2.map LoadError.decode ∧
        (loadConversionData fs p).1.conversionData =
          some (unmarshal data ConversionData.zero).1) ∧
      (fs localDevPath = .notExist →
        (loadConversionData fs p).2 = some (.read .notExist) ∧
        (loadConversionData fs p).1.conversionData = p.conversionData)) ∧
    ((loadConversionData fs p).1.reads = p.reads ++ [localDevPath] →
      fs containerPath = .notExist) := by
  refine ⟨fun h => ?_, fun h => ?_, fun h => ?_⟩
  · have hp := dataPath_of_ne fs h
    refine ⟨by rw [load_reads, hp], fun data hd => ?_, fun hu => ?_⟩
    · exact load_of_file fs p data (by rw [hp, hd])
    · apply load_of_error
      rw [hp]
      rcases hu with hu | hu <;> simp [osReadFile, hu]
  · have hp : dataPath fs = localDevPath := (dataPath_eq_localDev fs).2 h
    refine ⟨by rw [load_reads, hp], fun data hd => ?_, fun hu => ?_⟩
    · exact load_of_file fs p data (by rw [hp, hd])
    · apply load_of_error
      rw [hp]
      simp [osReadFile, hu]
  · rw [load_reads] at h
    exact (dataPath_eq_localDev fs).1 (by simpa using h)

/-- C5 with both candidate files present and with only the second present: the
dataset published is the one of `conversions.json` in the first case and the one
of `../public/data/conversions.json` in the second. -/
theorem C5_witness :
    ((loadConversionData fsBoth Process.start).1.conversionData =
        some (unmarshal (docMarked "first") ConversionData.zero).1 ∧
      (unmarshal (docMarked "first") ConversionData.zero).1.LastUpdated = "first") ∧
    ((loadConversionData fsLocalDev Process.start).1.conversionData =
        some (unmarshal (docMarked "second") ConversionData.zero).1 ∧
      (unmarshal (docMarked "second") ConversionData.zero).1.LastUpdated = "second") :=
  ⟨⟨(((C5_path_resolution fsBoth Process.start).1
        (by simp [fsBoth, containerPath])).2.1 (docMarked "first") rfl).2, by decide⟩,
    ⟨(((C5_path_resolution fsLocalDev Process.start).2.1 rfl).2.1 (docMarked "second") rfl).2,
      by decide⟩⟩

/-- C6: `getConversions` answers 500 exactly when `conversionData` is nil, with
the body `{"error": "Conversion data not loaded"}`, and 200 otherwise; after a
call of `loadConversionData` that returned nil, `conversionData` is non-nil and
the answer is 200. -/
theorem C6_defensive_guard (p : Process) (c : Context) (fs : FileSystem) (q : Process) :
    ((getConversions p c).2.status = 500 ↔ p.conversionData = none) ∧
    (p.conversionData = none →
      (getConversions p c).2.body = .json (.obj [("error", .str "Conversion data not loaded")])) ∧
    (p.conversionData ≠ none → (getConversions p c).2.status = 200) ∧
    ((loadConversionData fs q).2 = none →
      (loadConversionData fs q).1.conversionData ≠ none ∧
      (getConversions (loadConversionData fs q).1 c).2.status = 200) := by
  refine ⟨?_, ?_, ?_, ?_⟩
  · cases h : p.conversionData <;> simp [getConversions, h, Context.JSON]
  · intro h
    simp [getConversions, h, Context.JSON, errorBody_eq]
  · intro h
    cases h' : p.conversionData with
    | none => exact absurd h' h
    | some d => exact (getConversions_body p c d h').1
  · intro h
    obtain ⟨data, _, _, hd⟩ := load_ok_publishes fs q h
    exact ⟨by simp [hd], (getConversions_body _ c _ hd).1⟩

/-- C10: publication is not atomic on failure. Starting from a nil
`conversionData`, when `loadConversionData` returns an error, `conversionData` is
still nil exactly when the error is the one of `os.ReadFile`; when it is the one
of `json.Unmarshal`, `conversionData` already holds the struct `Unmarshal` was
decoding into (empty or filled in part), and `getConversions` answers 200. -/
theorem C10_publication_on_failure (fs : FileSystem) (p : Process) (c : Context)
    (e : LoadError) (hnil : p.conversionData = none)
    (herr : (loadConversionData fs p).2 = some e) :
    ((loadConversionData fs p).1.conversionData = none ↔ ∃ r, e = .read r) ∧
    ((∃ r, e = .read r) ↔ ∃ r, osReadFile fs (dataPath fs) = .error r) ∧
    (∀ d, e = .decode d →
      ∃ data, osReadFile fs (dataPath fs) = .ok data ∧
        (unmarshal data ConversionData.zero).2 = some d ∧
        (loadConversionData fs p).1.conversionData =
          some (unmarshal data ConversionData.zero).1 ∧
        (getConversions (loadConversionData fs p).1 c).2.status = 200) := by
  rcases load_cases fs p with ⟨r, hr, he, hc⟩ | ⟨data, hr, he, hc⟩
  · have hee : e = .read r := by
      rw [he] at herr
      exact (Option.some.inj herr).symm
    subst hee
    refine ⟨⟨fun _ => ⟨r, rfl⟩, fun _ => by rw [hc, hnil]⟩,
      ⟨fun _ => ⟨r, hr⟩, fun _ => ⟨r, rfl⟩⟩, ?_⟩
    intro d hd
    cases hd
  · rw [he] at herr
    cases hu : (unmarshal data ConversionData.zero).2 with
    | none => simp [hu] at herr
    | some d0 =>
      simp [hu] at herr
      subst herr
      refine ⟨⟨fun h => ?_, fun h => ?_⟩, ⟨fun h => ?_, fun h => ?_⟩, ?_⟩
      · rw [hc] at h
        cases h
      · obtain ⟨r, h⟩ := h
        cases h
      · obtain ⟨r, h⟩ := h
        cases h
      · obtain ⟨r, h⟩ := h
        rw [hr] at h
        cases h
      · intro d hd
        cases hd
        exact ⟨data, hr, hu, hc, (getConversions_body _ c _ hc).1⟩

/-- C10 at a file that is not a JSON text (scenario 5): the load fails in
`json.Unmarshal`, `conversionData` is the empty struct, not nil. -/
theorem C10_witness :
    (loadConversionData (fsWith .malformed) Process.start).2 = some (.decode .invalid) ∧
    (loadConversionData (fsWith .malformed) Process.start).1.conversionData =
      some ConversionData.zero ∧
    (getConversions (loadConversionData (fsWith .malformed) Process.start).1
      Context.new).2.status = 200 := by
  have h := C10_publication_on_failure (fsWith .malformed) Process.start Context.new
    (.decode .invalid) rfl (by decide)
  obtain ⟨data, hr, _, hc, hs⟩ := h.2.2 .invalid rfl
  have hd : data = .malformed := by
    have : osReadFile (fsWith .malformed) (dataPath (fsWith .malformed)) = .ok .malformed := rfl
    rw [this] at hr
    exact (Except.ok.inj hr).symm
  subst hd
  exact ⟨by decide, hc, hs⟩

/-- A root that is a string, a number, a boolean or an array makes
`json.Unmarshal` return an error. -/
theorem unmarshal_scalar (doc : JSON) (v : ConversionData) (h : doc.isScalarOrArray = true) :
    ∃ e, (unmarshal (.json doc) v).2 = some e := by
  unfold unmarshal
  by_cases hd : maxNestingDepth < doc.depth
  · exact ⟨.invalid, by simp [hd]⟩
  · cases doc <;> simp [JSON.isScalarOrArray] at h <;> simp [hd, unmarshalRoot]

/-- C4 (amended): a root that is a string, a number, a boolean or an array is a
parse failure: `loadConversionData` returns the error of `json.Unmarshal` and
`main` exits fatally. A root `null` is not: `loadConversionData` returns nil,
`conversionData` is the empty struct, and `main` goes on to serve. -/
theorem C4_non_object_root (fs : FileSystem) (p : Process) (portEnv : String) (doc : JSON)
    (hfile : osReadFile fs (dataPath fs) = .ok (.json doc)) :
    (doc.isScalarOrArray = true →
      (∃ e, (loadConversionData fs p).2 = some (.decode e)) ∧
      ∃ q, main fs portEnv = .fatal q) ∧
    (doc = .null →
      (loadConversionData fs p).2 = none ∧
      (loadConversionData fs p).1.conversionData = some ConversionData.zero ∧
      ∃ q, main fs portEnv = .serving q (if portEnv = "" then "8080" else portEnv)) := by
  have key : ∀ p : Process,
      (loadConversionData fs p).2 =
        (unmarshal (.json doc) ConversionData.zero).2.map LoadError.decode ∧
      (loadConversionData fs p).1.conversionData =
        some (unmarshal (.json doc) ConversionData.zero).1 := by
    intro p
    rcases load_cases fs p with ⟨r, hr, _, _⟩ | ⟨data, hr, he, hc⟩
    · rw [hfile] at hr
      cases hr
    · rw [hfile] at hr
      cases hr
      exact ⟨he, hc⟩
  constructor
  · intro h
    obtain ⟨e, he⟩ := unmarshal_scalar doc ConversionData.zero h
    have h1 : ∀ p : Process, (loadConversionData fs p).2 = some (.decode e) := by
      intro p
      rw [(key p).1, he]
      rfl
    exact ⟨⟨e, h1 p⟩, main_fatal fs portEnv _ (h1 _)⟩
  · intro h
    subst h
    have hu : unmarshal (.json .null) ConversionData.zero = (ConversionData.zero, none) := rfl
    have h1 : ∀ p : Process, (loadConversionData fs p).2 = none := by
      intro p
      rw [(key p).1, hu]
      rfl
    refine ⟨h1 p, ?_, ?_⟩
    · rw [(key p).2, hu]
    · simp [main, h1]

/-- C4 at the file `"not json"` of the specification: a parse failure, and
`main` exits fatally. -/
theorem C4_witness :
    (∃ e, (loadConversionData (fsWith (.json (.str "not json"))) Process.start).2 =
      some (.decode e)) ∧
    ∃ q, main (fsWith (.json (.str "not json"))) "" = .fatal q :=
  (C4_non_object_root (fsWith (.json (.str "not json"))) Process.start "" (.str "not json")
    rfl).1 rfl

/-- C4 fails at the file `null`: it is well-formed JSON whose root is not an
object, yet `loadConversionData` returns nil and `main` serves on port 8080. -/
theorem C4_counterexample :
    osReadFile (fsWith (.json .null)) (dataPath (fsWith (.json .null))) = .ok (.json .null) ∧
    (loadConversionData (fsWith (.json .null)) Process.start).2 = none ∧
    ∃ q, main (fsWith (.json .null)) "" = .serving q "8080" := by
  refine ⟨rfl, by decide, ?_⟩
  simp [main, show (loadConversionData (fsWith (.json .null)) Process.start).2 = none by decide]

/-! ## The served struct -/

/-- The served object has the five tags as keys, in declaration order. -/
theorem marshalStruct_keys (d : ConversionData) : (marshalStruct d).keys = recognisedKeys := by
  simp [marshalStruct, JSON.keys, recognisedKeys]

/-- The value served under the tag of a field. -/
theorem marshalStruct_get (d : ConversionData) (f : Field) :
    (marshalStruct d).get f.name = some (marshalField f d) := by
  cases f <;> simp [marshalStruct, JSON.get, Field.all, Field.name, List.lookup]

/-- Storing into one field leaves the others as they were. -/
theorem marshalField_setField_ne (f g : Field) (j : JSON) (v : ConversionData) (h : f ≠ g) :
    marshalField f (setField g j v).1 = marshalField f v := by
  cases f <;> cases g <;> first | exact absurd rfl h | rfl

/-- A field no member key is matched to keeps its value through the decode. -/
theorem marshalField_decodeMembers_absent (f : Field) :
    ∀ (members : List (String × JSON)) (v : ConversionData),
      (∀ k ∈ members.map Prod.fst, findField k ≠ some f) →
      marshalField f (decodeMembers members v).1 = marshalField f v
  | [], _, _ => rfl
  | (k, j) :: rest, v, h => by
    have hk : findField k ≠ some f := h k (by simp)
    have hrest : ∀ k' ∈ rest.map Prod.fst, findField k' ≠ some f := fun k' hk' =>
      h k' (by simp at hk' ⊢; exact Or.inr hk')
    unfold decodeMembers
    cases hf : findField k with
    | none => simpa using marshalField_decodeMembers_absent f rest v hrest
    | some g =>
      have hne : f ≠ g := fun e => hk (by rw [hf, e])
      simp only []
      rw [marshalField_decodeMembers_absent f rest _ hrest, marshalField_setField_ne f g j v hne]

/-- The fields of the empty struct marshal to the zero values. -/
theorem marshalField_zero (f : Field) : marshalField f ConversionData.zero = f.zeroJSON := by
  cases f <;> rfl

/-- C2 (amended): unknown top-level fields are dropped. After a load that returned
nil, the body `getConversions` serves is an object whose keys are exactly the five
recognised ones, so a key `k` that is not one of them does not occur in it. -/
theorem C2_unknown_fields_dropped (fs : FileSystem) (p : Process) (c : Context) (k : String)
    (hload : (loadConversionData fs p).2 = none) (hk : k ∉ recognisedKeys) :
    ∃ body, (getConversions (loadConversionData fs p).1 c).2.body = .json body ∧
      body.keys = recognisedKeys ∧ k ∉ body.keys ∧ body.get k = none := by
  obtain ⟨data, _, _, hd⟩ := load_ok_publishes fs p hload
  refine ⟨_, (getConversions_body _ c _ hd).2, marshalStruct_keys _, ?_, ?_⟩
  · rw [marshalStruct_keys]
    exact hk
  · simp only [marshalStruct, JSON.get]
    rw [List.lookup_eq_none_iff]
    intro a ha
    simp only [List.mem_map] at ha
    obtain ⟨f, hf, rfl⟩ := ha
    simp only [bne_iff_ne, ne_eq]
    intro e
    exact hk (by rw [e]; exact List.mem_map_of_mem _ hf)

/-- C2 (amended) at a file with the five recognised fields and `"extra": 1`. -/
theorem C2_witness :
    ∃ body, (getConversions (loadConversionData (fsWith (.json (.obj membersExtra)))
        Process.start).1 Context.new).2.body = .json body ∧
      body.keys = recognisedKeys ∧ "extra" ∉ body.keys ∧ body.get "extra" = none :=
  C2_unknown_fields_dropped (fsWith (.json (.obj membersExtra))) Process.start Context.new
    "extra" (by decide) (by decide)

/-- C2 fails at a file with the five recognised fields and `"extra": 1`: it loads,
`extra` is a top-level key of the input that is not a recognised one, and the
served body has no key `extra`. -/
theorem C2_counterexample :
    (loadConversionData (fsWith (.json (.obj membersExtra))) Process.start).2 = none ∧
    "extra" ∈ (JSON.obj membersExtra).keys ∧ "extra" ∉ recognisedKeys ∧
    ∃ body, (getConversions (loadConversionData (fsWith (.json (.obj membersExtra)))
        Process.start).1 Context.new).2.body = .json body ∧
      "extra" ∉ body.keys := by
  refine ⟨by decide, by decide, by decide, _, rfl, ?_⟩
  decide

/-- C3 (amended): the served body always has exactly the five recognised keys, in
declaration order, whatever the input object holds; a recognised field that no
key of the input is matched to is served with the zero value of its Go type, the
empty string for `lastUpdated` and `dataSource`, `null` for `config`, `programs`
and `conversions`. -/
theorem C3_all_fields_served (fs : FileSystem) (p : Process) (c : Context)
    (members : List (String × JSON))
    (hfile : osReadFile fs (dataPath fs) = .ok (.json (.obj members)))
    (hload : (loadConversionData fs p).2 = none) :
    ∃ body, (getConversions (loadConversionData fs p).1 c).2.body = .json body ∧
      body.keys = recognisedKeys ∧
      ∀ f : Field, (∀ k ∈ members.map Prod.fst, findField k ≠ some f) →
        body.get f.name = some f.zeroJSON := by
  obtain ⟨data, hr, hu, hd⟩ := load_ok_publishes fs p hload
  rw [hfile] at hr
  cases hr
  refine ⟨_, (getConversions_body _ c _ hd).2, marshalStruct_keys _, ?_⟩
  intro f hf
  rw [marshalStruct_get]
  have hroot : (unmarshal (.json (.obj members)) ConversionData.zero).1 =
      (decodeMembers members ConversionData.zero).1 := by
    unfold unmarshal
    by_cases hdep : maxNestingDepth < (JSON.obj members).depth
    · simp [unmarshal, hdep] at hu
    · simp [hdep, unmarshalRoot]
  rw [hroot, marshalField_decodeMembers_absent f members _ hf, marshalField_zero]

/-- C3 (amended) at the file `{}`. -/
theorem C3_witness :
    ∃ body, (getConversions (loadConversionData (fsWith (.json (.obj []))) Process.start).1
        Context.new).2.body = .json body ∧
      body.keys = recognisedKeys ∧
      ∀ f : Field, (∀ k ∈ ([] : List (String × JSON)).map Prod.fst, findField k ≠ some f) →
        body.get f.name = some f.zeroJSON :=
  C3_all_fields_served (fsWith (.json (.obj []))) Process.start Context.new [] rfl (by decide)

/-- C3 fails at the file `{}`: it loads, it has no key at all, and the served
body has the key `lastUpdated` with the value `""` and the key `config` with the
value `null`. -/
theorem C3_counterexample :
    (loadConversionData (fsWith (.json (.obj []))) Process.start).2 = none ∧
    (JSON.obj []).keys = [] ∧
    ∃ body, (getConversions (loadConversionData (fsWith (.json (.obj []))) Process.start).1
        Context.new).2.body = .json body ∧
      "lastUpdated" ∈ body.keys ∧ body.get "lastUpdated" = some (.str "") ∧
      body.get "config" = some .null := by
  refine ⟨by decide, rfl, _, rfl, ?_, rfl, rfl⟩
  decide

/-- The body of the health response as `json.Marshal` writes it (keys sorted). -/
theorem healthBody_eq :
    marshalValue (.map [("status", .string "healthy"),
        ("message", .string "Points Converter API is running")]) =
      .obj [("message", .str "Points Converter API is running"), ("status", .str "healthy")] := by
  rfl

/-- C9: for every dataset state `getHealth` responds with status 200 and the body
`{"status":"healthy","message":"Points Converter API is running"}`; it leaves the
process state as it is, and its response is the same for any two states. -/
theorem C9_health (p q : Process) (c : Context) :
    (getHealth p c).2.status = 200 ∧
    (getHealth p c).2.body.sameAs (.obj [("status", .str "healthy"),
      ("message", .str "Points Converter API is running")]) ∧
    (getHealth p c).1 = p ∧
    (getHealth p c).2 = (getHealth q c).2 := by
  refine ⟨rfl, ⟨_, rfl, ?_⟩, rfl, rfl⟩
  rfl

/-! ## The CORS middleware -/

/-- After `header[k] = vs` the values under `k` are `vs`. -/
theorem lookup_filter_append (k : String) (vs : List String) :
    ∀ l : List (String × List String),
      List.lookup k (l.filter (fun h => h.1 != k) ++ [(k, vs)]) = some vs
  | [] => by simp [List.lookup]
  | (k', v') :: l => by
    by_cases h : k' = k
    · subst h
      simpa [List.filter] using lookup_filter_append k' vs l
    · have hb : (k == k') = false := by
        simp only [beq_eq_false_iff_ne, ne_eq]
        exact fun e => h e.symm
      have hne : (k' != k) = true := by simp [h]
      simp only [List.filter, hne, List.cons_append, List.lookup, hb]
      exact lookup_filter_append k vs l

/-- The assignment `header[k] = vs` leaves the other keys as they were. -/
theorem lookup_filter_append_ne (k k' : String) (vs : List String) (hne : k' ≠ k) :
    ∀ l : List (String × List String),
      List.lookup k' (l.filter (fun h => h.1 != k) ++ [(k, vs)]) = List.lookup k' l
  | [] => by
    have hb : (k' == k) = false := by simpa using hne
    simp [List.lookup, hb]
  | (a, v) :: l => by
    by_cases h : a = k
    · subst h
      have hb : (k' == a) = false := by simpa using hne
      simpa [List.filter, List.lookup, hb] using lookup_filter_append_ne a k' vs hne l
    · have hf : (a != k) = true := by simp [h]
      simp only [List.filter, hf, List.cons_append, List.lookup]
      cases hb : (k' == a)
      · exact lookup_filter_append_ne k k' vs hne l
      · rfl

/-- Reading back a header that was just set. -/
theorem header_setHeader (c : Context) (k v : String) :
    (c.setHeader k [v]).header k = some v := by
  simp [Context.setHeader, Context.header, lookup_filter_append]

/-- Setting one header does not change another. -/
theorem header_setHeader_ne (c : Context) (k k' : String) (vs : List String) (hne : k' ≠ k) :
    (c.setHeader k vs).header k' = c.header k' := by
  simp [Context.setHeader, Context.header, lookup_filter_append_ne k k' vs hne]

/-- Aborting does not change the headers. -/
theorem header_abortWithStatus (c : Context) (n : Nat) (k : String) :
    (c.abortWithStatus n).header k = c.header k := rfl

/-- The origins the middleware accepts are the three configured in `main`. -/
theorem validateOrigin_iff (origin : String) :
    validateOrigin corsConfig origin = true ↔ origin ∈ corsConfig.AllowOrigins := by
  have h : normalize ["https://points-converter.com", "http://localhost:5173",
      "http://localhost:4173"] = ["https://points-converter.com", "http://localhost:5173",
      "http://localhost:4173"] := by rfl
  simp [validateOrigin, h, corsConfig, defaultConfig]

/-- An allowed origin is not the empty string. -/
theorem allowed_ne_empty (origin : String) (h : origin ∈ corsConfig.AllowOrigins) :
    origin ≠ "" := by
  intro e
  subst e
  revert h
  decide

/-- The middleware on a preflight from an allowed origin that is not the
request's own host. -/
theorem applyCors_preflight (req : Request) (c : Context)
    (hO : req.origin ∈ corsConfig.AllowOrigins) (hm : req.method = "OPTIONS")
    (hhost : ¬ req.ownHost) :
    applyCors corsConfig req c =
      ((c.setHeaders (preflightHeaders corsConfig)).setHeader "Access-Control-Allow-Origin"
        [req.origin]).abortWithStatus 204 := by
  have h1 := allowed_ne_empty _ hO
  have h2 := (validateOrigin_iff req.origin).2 hO
  have h3 : ¬ (req.origin = "http://" ++ req.host ∨ req.origin = "https://" ++ req.host) := hhost
  have h4 : corsConfig.AllowAllOrigins = false := rfl
  unfold applyCors
  rw [if_neg h1, if_neg h3]
  simp [h2, hm, h4]

/-- The middleware lets a request without `Origin`, or from its own host, pass. -/
theorem applyCors_passes (req : Request) (c : Context) (h : req.origin = "" ∨ req.ownHost) :
    applyCors corsConfig req c = c := by
  unfold applyCors
  by_cases h1 : req.origin = ""
  · rw [if_pos h1]
  · have h2 : req.origin = "http://" ++ req.host ∨ req.origin = "https://" ++ req.host :=
      h.resolve_left h1
    rw [if_neg h1, if_pos h2]

/-- The middleware aborts a request from any other origin that is not allowed. -/
theorem applyCors_forbidden (req : Request) (c : Context)
    (hO : req.origin ∉ corsConfig.AllowOrigins) (h : ¬ (req.origin = "" ∨ req.ownHost)) :
    applyCors corsConfig req c = c.abortWithStatus 403 := by
  have h1 : ¬ req.origin = "" := fun e => h (Or.inl e)
  have h3 : ¬ (req.origin = "http://" ++ req.host ∨ req.origin = "https://" ++ req.host) :=
    fun e => h (Or.inr e)
  have h2 : validateOrigin corsConfig req.origin = false := by
    cases hv : validateOrigin corsConfig req.origin
    · rfl
    · exact absurd ((validateOrigin_iff _).1 hv) hO
  unfold applyCors
  rw [if_neg h1, if_neg h3]
  simp [h2]

/-- C7 (amended): for every allowed origin O and every method M of the five, an
`OPTIONS` request carrying `Origin: O` and `Access-Control-Request-Method: M`
whose `Host` is not the host of O itself receives status 204 with
`Access-Control-Allow-Origin` equal to O and `Access-Control-Allow-Methods`
including M. -/
theorem C7_preflight (p : Process) (req : Request)
    (hm : req.method = "OPTIONS")
    (hO : req.origin ∈ corsConfig.AllowOrigins)
    (hM : req.requestMethod ∈ corsConfig.AllowMethods)
    (hhost : ¬ req.ownHost) :
    (serveHTTP p req).2.status = 204 ∧
    (serveHTTP p req).2.header "Access-Control-Allow-Origin" = some req.origin ∧
    ∃ v, (serveHTTP p req).2.header "Access-Control-Allow-Methods" = some v ∧
      req.requestMethod ∈ splitComma v := by
  have hs : serveHTTP p req = noRoute p req := by
    simp [serveHTTP, hm]
  have hc := applyCors_preflight req { Context.new with status := 404 } hO hm hhost
  have hn : (noRoute p req).2 = applyCors corsConfig req { Context.new with status := 404 } := by
    unfold noRoute
    rw [hc]
    rfl
  rw [hs, hn, hc]
  refine ⟨rfl, ?_, "GET,POST,PUT,DELETE,OPTIONS", ?_, ?_⟩
  · rw [header_abortWithStatus, header_setHeader]
  · rw [header_abortWithStatus, header_setHeader_ne _ _ _ _ (by decide)]
    decide
  · have : splitComma "GET,POST,PUT,DELETE,OPTIONS" = corsConfig.AllowMethods := by rfl
    rw [this]
    exact hM

/-- C7 (amended) at the preflight of scenario 6. -/
theorem C7_witness :
    (serveHTTP servingScenario preflightDev).2.status = 204 ∧
    (serveHTTP servingScenario preflightDev).2.header "Access-Control-Allow-Origin" =
      some "http://localhost:5173" ∧
    ∃ v, (serveHTTP servingScenario preflightDev).2.header "Access-Control-Allow-Methods" =
        some v ∧ "GET" ∈ splitComma v :=
  C7_preflight servingScenario preflightDev rfl (by decide) (by decide)
    (by simp [Request.ownHost, preflightDev])

/-- C7 fails when the request names its own host as origin: an `OPTIONS` request
with `Origin: https://points-converter.com`, `Access-Control-Request-Method: GET`
and `Host: points-converter.com` is passed on by the middleware, finds no route
and receives 404 without `Access-Control-Allow-Origin`. -/
theorem C7_counterexample :
    preflightOwnHost.origin ∈ corsConfig.AllowOrigins ∧
    preflightOwnHost.requestMethod ∈ corsConfig.AllowMethods ∧
    (serveHTTP servingScenario preflightOwnHost).2.status = 404 ∧
    (serveHTTP servingScenario preflightOwnHost).2.header "Access-Control-Allow-Origin" =
      none := by
  decide

/-- C8 (amended): after a successful startup, `GET /api/v1/conversions` with an
`Origin` that is not one of the three allowed origins never carries
`Access-Control-Allow-Origin`. When the `Origin` is empty or names the request's
own host the response is 200 with the dataset body; for every other such origin
the middleware aborts the request with status 403 and no body. -/
theorem C8_disallowed_origin (fs : FileSystem) (portEnv port : String) (p : Process)
    (req : Request)
    (hstart : main fs portEnv = .serving p port)
    (hget : req.method = "GET") (hpath : req.path = "/api/v1/conversions")
    (hO : req.origin ∉ corsConfig.AllowOrigins) :
    (serveHTTP p req).2.header "Access-Control-Allow-Origin" = none ∧
    ((req.origin = "" ∨ req.ownHost) →
      (serveHTTP p req).2.status = 200 ∧
      ∃ d, p.conversionData = some d ∧ (serveHTTP p req).2.body = .json (marshalStruct d)) ∧
    (¬ (req.origin = "" ∨ req.ownHost) →
      (serveHTTP p req).2.status = 403 ∧ (serveHTTP p req).2.body = .empty) := by
  obtain ⟨_, d, hd⟩ := main_serving fs portEnv port p hstart
  by_cases h : req.origin = "" ∨ req.ownHost
  · have hc := applyCors_passes req Context.new h
    have hs : serveHTTP p req = getConversions p Context.new := by
      have ha : Context.new.aborted = false := rfl
      simp [serveHTTP, hget, hpath, routeOf, hc, ha]
    rw [hs]
    refine ⟨?_, fun _ => ⟨?_, d, hd, ?_⟩, fun h' => absurd h h'⟩
    · simp [getConversions, hd, Context.JSON, Context.new, Context.setHeader, Context.header,
        List.lookup]
    · exact (getConversions_body p _ d hd).1
    · exact (getConversions_body p _ d hd).2
  · have hc := applyCors_forbidden req Context.new hO h
    have hs : (serveHTTP p req).2 = Context.new.abortWithStatus 403 := by
      simp [serveHTTP, hget, hpath, routeOf, hc, Context.abortWithStatus]
    rw [hs]
    exact ⟨rfl, fun h' => absurd h' h, fun _ => ⟨rfl, rfl⟩⟩

/-- C8 (amended) at scenario 3, `Origin: https://evil.example`: no
`Access-Control-Allow-Origin`, status 403, no body. -/
theorem C8_witness :
    (serveHTTP servingScenario requestEvil).2.header "Access-Control-Allow-Origin" = none ∧
    (serveHTTP servingScenario requestEvil).2.status = 403 ∧
    (serveHTTP servingScenario requestEvil).2.body = .empty :=
  have h := C8_disallowed_origin (fsWith (.json (.obj membersScenario))) "9090" "9090"
    servingScenario requestEvil rfl rfl rfl (by decide)
  ⟨h.1, h.2.2 (by simp [Request.ownHost, requestEvil])⟩

/-- C8 fails at scenario 3: after the startup of scenario 1, the request
`GET /api/v1/conversions` with `Origin: https://evil.example` (not an allowed
origin) is answered with status 403 and an empty body, not with 200 and the
dataset. -/
theorem C8_counterexample :
    main (fsWith (.json (.obj membersScenario))) "9090" = .serving servingScenario "9090" ∧
    requestEvil.origin ∉ corsConfig.AllowOrigins ∧
    (serveHTTP servingScenario requestEvil).2.status = 403 ∧
    (serveHTTP servingScenario requestEvil).2.body = .empty := by
  refine ⟨rfl, by decide, by decide, rfl⟩

/-! ## Order of keys, maps and sorting -/

theorem codeLe_total : ∀ a b : List Nat, codeLe a b = true ∨ codeLe b a = true
  | [], _ => Or.inl (by simp [codeLe])
  | _ :: _, [] => Or.inr (by simp [codeLe])
  | a :: as, b :: bs => by
    rcases Nat.lt_trichotomy a b with h | h | h
    · left; simp [codeLe, h]
    · subst h
      simpa [codeLe] using codeLe_total as bs
    · right; simp [codeLe, h]

theorem codeLe_trans : ∀ a b c : List Nat,
    codeLe a b = true → codeLe b c = true → codeLe a c = true
  | [], _, _, _, _ => by simp [codeLe]
  | _ :: _, [], _, h, _ => by simp [codeLe] at h
  | _ :: _, _ :: _, [], _, h => by simp [codeLe] at h
  | a :: as, b :: bs, c :: cs, h1, h2 => by
    simp only [codeLe] at h1 h2 ⊢
    by_cases hab : a < b
    · by_cases hbc : b < c
      · simp [Nat.lt_trans hab hbc]
      · by_cases hcb : c < b
        · simp [hbc, hcb] at h2
        · have : b = c := Nat.le_antisymm (Nat.not_lt.1 hcb) (Nat.not_lt.1 hbc)
          subst this
          simp [hab]
    · by_cases hba : b < a
      · simp [hab, hba] at h1
      · have : a = b := Nat.le_antisymm (Nat.not_lt.1 hba) (Nat.not_lt.1 hab)
        subst this
        simp only [hab, if_false] at h1
        by_cases hbc : a < c
        · simp [hbc]
        · by_cases hcb : c < a
          · simp [hbc, hcb] at h2
          · simp only [hbc, hcb, if_false] at h2 ⊢
            exact codeLe_trans as bs cs h1 h2

theorem codeLe_antisymm : ∀ a b : List Nat,
    codeLe a b = true → codeLe b a = true → a = b
  | [], [], _, _ => rfl
  | [], _ :: _, _, h => by simp [codeLe] at h
  | _ :: _, [], h, _ => by simp [codeLe] at h
  | a :: as, b :: bs, h1, h2 => by
    simp only [codeLe] at h1 h2
    by_cases hab : a < b
    · have hba : ¬ b < a := Nat.lt_asymm hab
      simp [hab, hba] at h2
    · by_cases hba : b < a
      · simp [hab, hba] at h1
      · have : a = b := Nat.le_antisymm (Nat.not_lt.1 hba) (Nat.not_lt.1 hab)
        subst this
        simp only [hab, if_false] at h1 h2
        rw [codeLe_antisymm as bs h1 h2]

theorem codes_injective (a b : String)
    (h : a.data.map Char.toNat = b.data.map Char.toNat) : a = b := by
  have hinj : Function.Injective Char.toNat := by
    intro x y hxy
    apply Char.ext
    apply UInt32.ext
    exact hxy
  have := List.map_injective_iff.2 hinj h
  exact String.ext this

theorem keyLe_total (a b : String) : keyLe a b = true ∨ keyLe b a = true :=
  codeLe_total _ _

theorem keyLe_trans (a b c : String) (h1 : keyLe a b = true) (h2 : keyLe b c = true) :
    keyLe a c = true :=
  codeLe_trans _ _ _ h1 h2

theorem keyLe_antisymm (a b : String) (h1 : keyLe a b = true) (h2 : keyLe b a = true) :
    a = b :=
  codes_injective a b (codeLe_antisymm _ _ h1 h2)

/-! ### Maps as association lists -/

theorem mapSet_keys_of_mem {α : Type} (k : String) (v : α) :
    ∀ m : List (String × α), k ∈ m.map Prod.fst →
      (mapSet k v m).map Prod.fst = m.map Prod.fst
  | [], h => by simp at h
  | (k', v') :: m, h => by
    unfold mapSet
    by_cases hk : k' = k
    · simp [hk]
    · have h' : k ∈ m.map Prod.fst := by
        simp only [List.map_cons, List.mem_cons] at h
        rcases h with h | h
        · exact absurd h.symm hk
        · exact h
      simp [hk, mapSet_keys_of_mem k v m h']

theorem mapSet_of_not_mem {α : Type} (k : String) (v : α) :
    ∀ m : List (String × α), k ∉ m.map Prod.fst → mapSet k v m = m ++ [(k, v)]
  | [], _ => rfl
  | (k', v') :: m, h => by
    have hk : ¬ k' = k := fun e => h (by simp [e])
    have h' : k ∉ m.map Prod.fst := fun e => h (by simp at e ⊢; exact Or.inr e)
    simp [mapSet, hk, mapSet_of_not_mem k v m h']

theorem mapSet_nodup {α : Type} (k : String) (v : α) (m : List (String × α))
    (h : (m.map Prod.fst).Nodup) : ((mapSet k v m).map Prod.fst).Nodup := by
  by_cases hk : k ∈ m.map Prod.fst
  · rw [mapSet_keys_of_mem k v m hk]
    exact h
  · rw [mapSet_of_not_mem k v m hk]
    simp only [List.map_append, List.map_cons, List.map_nil]
    exact List.Nodup.append h (List.nodup_singleton k) (by simpa using hk)

theorem mapSetAll_nodup {α : Type} :
    ∀ (l m : List (String × α)), (m.map Prod.fst).Nodup →
      ((mapSetAll m l).map Prod.fst).Nodup
  | [], _, h => h
  | (k, v) :: l, m, h => by
    unfold mapSetAll
    exact mapSetAll_nodup l _ (mapSet_nodup k v m h)

theorem mem_mapSet {α : Type} (k : String) (v : α) (p : String × α) :
    ∀ m : List (String × α), p ∈ mapSet k v m → p ∈ m ∨ p = (k, v)
  | [], h => by
    simp only [mapSet, List.mem_singleton] at h
    exact Or.inr h
  | (k', v') :: m, h => by
    unfold mapSet at h
    by_cases hk : k' = k
    · simp only [hk, if_true, List.mem_cons] at h
      rcases h with h | h
      · exact Or.inr h
      · exact Or.inl (List.mem_cons_of_mem _ h)
    · simp only [hk, if_false, List.mem_cons] at h
      rcases h with h | h
      · exact Or.inl (by simp [h])
      · rcases mem_mapSet k v p m h with h | h
        · exact Or.inl (List.mem_cons_of_mem _ h)
        · exact Or.inr h

theorem mem_mapSetAll {α : Type} (p : String × α) :
    ∀ (l m : List (String × α)), p ∈ mapSetAll m l → p ∈ m ∨ p ∈ l
  | [], _, h => Or.inl h
  | (k, v) :: l, m, h => by
    unfold mapSetAll at h
    rcases mem_mapSetAll p l _ h with h | h
    · rcases mem_mapSet k v p m h with h | h
      · exact Or.inl h
      · exact Or.inr (by simp [h])
    · exact Or.inr (List.mem_cons_of_mem _ h)

theorem mapSetAll_of_nodup {α : Type} :
    ∀ (l m : List (String × α)), ((m ++ l).map Prod.fst).Nodup → mapSetAll m l = m ++ l
  | [], m, _ => by simp [mapSetAll]
  | (k, v) :: l, m, h => by
    unfold mapSetAll
    have hk : k ∉ m.map Prod.fst := by
      intro hm
      simp only [List.map_append, List.map_cons] at h
      have := (List.nodup_append.1 h).2.2
      exact this hm (List.mem_cons_self _ _)
    rw [mapSet_of_not_mem k v m hk]
    have h' : (((m ++ [(k, v)]) ++ l).map Prod.fst).Nodup := by
      simpa using h
    rw [mapSetAll_of_nodup l _ h']
    simp

theorem mapSet_map {α β : Type} (f : α → β) (k : String) (v : α) :
    ∀ m : List (String × α),
      mapSet k (f v) (m.map (Prod.map id f)) = (mapSet k v m).map (Prod.map id f)
  | [] => rfl
  | (k', v') :: m => by
    by_cases hk : k' = k
    · simp [mapSet, hk]
    · simp [mapSet, hk, mapSet_map f k v m]

theorem mapSetAll_map {α β : Type} (f : α → β) :
    ∀ (l m : List (String × α)),
      mapSetAll (m.map (Prod.map id f)) (l.map (Prod.map id f)) =
        (mapSetAll m l).map (Prod.map id f)
  | [], _ => rfl
  | (k, v) :: l, m => by
    simp only [List.map_cons, Prod.map_apply, id_eq, mapSetAll]
    rw [mapSet_map, mapSetAll_map f l]

theorem keys_map {α β : Type} (f : α → β) (l : List (String × α)) :
    (l.map (Prod.map id f)).map Prod.fst = l.map Prod.fst := by
  simp [List.map_map, Function.comp_def]

/-! ### Sorting by key -/

theorem keyRel_total (α : Type) :
    IsTotal (String × α) (fun a b => keyLe a.1 b.1 = true) :=
  ⟨fun a b => keyLe_total a.1 b.1⟩

theorem keyRel_trans (α : Type) :
    IsTrans (String × α) (fun a b => keyLe a.1 b.1 = true) :=
  ⟨fun a b c => keyLe_trans a.1 b.1 c.1⟩

theorem sortByKey_perm {α : Type} (l : List (String × α)) : (sortByKey l).Perm l :=
  List.perm_insertionSort _ l

theorem sortByKey_sorted {α : Type} (l : List (String × α)) :
    (sortByKey l).Sorted (fun a b => keyLe a.1 b.1 = true) := by
  haveI := keyRel_total α
  haveI := keyRel_trans α
  exact List.sorted_insertionSort _ l

theorem sortByKey_idem {α : Type} (l : List (String × α)) :
    sortByKey (sortByKey l) = sortByKey l :=
  List.Sorted.insertionSort_eq (sortByKey_sorted l)

theorem sortByKey_keys_nodup {α : Type} (l : List (String × α))
    (h : (l.map Prod.fst).Nodup) : ((sortByKey l).map Prod.fst).Nodup :=
  ((sortByKey_perm l).map Prod.fst).nodup_iff.2 h

theorem orderedInsert_map {α β : Type} (f : α → β) (a : String × α) :
    ∀ l : List (String × α),
      List.orderedInsert (fun a b : String × β => keyLe a.1 b.1 = true) (Prod.map id f a)
          (l.map (Prod.map id f)) =
        (List.orderedInsert (fun a b : String × α => keyLe a.1 b.1 = true) a l).map
          (Prod.map id f)
  | [] => rfl
  | b :: l => by
    simp only [List.map_cons, List.orderedInsert, Prod.map_fst, id_eq]
    by_cases h : keyLe a.1 b.1 = true
    · simp [h]
    · simp [h, orderedInsert_map f a l]

theorem sortByKey_map {α β : Type} (f : α → β) :
    ∀ l : List (String × α),
      sortByKey (l.map (Prod.map id f)) = (sortByKey l).map (Prod.map id f)
  | [] => rfl
  | a :: l => by
    have ih := sortByKey_map f l
    unfold sortByKey at ih ⊢
    simp only [List.map_cons, List.insertionSort]
    rw [ih, orderedInsert_map]

theorem strict_of_sorted_nodup {α : Type} (l : List (String × α))
    (hs : l.Sorted (fun a b => keyLe a.1 b.1 = true)) (hn : (l.map Prod.fst).Nodup) :
    l.Sorted (fun a b => keyLe a.1 b.1 = true ∧ a.1 ≠ b.1) := by
  have hp : l.Pairwise (fun a b => a.1 ≠ b.1) := by
    have := List.pairwise_map.1 hn
    exact this
  exact List.Pairwise.and hs hp

theorem keyStrict_antisymm (α : Type) :
    IsAntisymm (String × α) (fun a b => keyLe a.1 b.1 = true ∧ a.1 ≠ b.1) :=
  ⟨fun a b h1 h2 => absurd (keyLe_antisymm a.1 b.1 h1.1 h2.1) h1.2⟩

theorem sortByKey_eq_of_perm {α : Type} (l₁ l₂ : List (String × α)) (hp : l₁.Perm l₂)
    (hn : (l₁.map Prod.fst).Nodup) : sortByKey l₁ = sortByKey l₂ := by
  have hn2 : (l₂.map Prod.fst).Nodup := (hp.map Prod.fst).nodup_iff.1 hn
  have h1 := strict_of_sorted_nodup _ (sortByKey_sorted l₁) (sortByKey_keys_nodup l₁ hn)
  have h2 := strict_of_sorted_nodup _ (sortByKey_sorted l₂) (sortByKey_keys_nodup l₂ hn2)
  haveI := keyStrict_antisymm α
  exact List.eq_of_perm_of_sorted
    (((sortByKey_perm l₁).trans hp).trans (sortByKey_perm l₂).symm) h1 h2

/-! ## The round trip through `Unmarshal` and `Marshal` -/

theorem arrayInterface_fst : ∀ xs : List JSON,
    (arrayInterface xs).1 = xs.map (fun v => (valueInterface v).1)
  | [] => by simp [arrayInterface]
  | x :: xs => by simp [arrayInterface, arrayInterface_fst xs]

theorem objectInterface_fst : ∀ kvs : List (String × JSON),
    (objectInterface kvs).1 = kvs.map (Prod.map id (fun v => (valueInterface v).1))
  | [] => by simp [objectInterface]
  | (k, v) :: rest => by simp [objectInterface, objectInterface_fst rest]

theorem marshalList_eq : ∀ xs : List GoVal, marshalList xs = xs.map marshalValue
  | [] => by simp [marshalList]
  | x :: xs => by simp [marshalList, marshalList_eq xs]

theorem marshalMembers_eq : ∀ m : List (String × GoVal),
    marshalMembers m = m.map (Prod.map id marshalValue)
  | [] => by simp [marshalMembers]
  | (k, v) :: rest => by simp [marshalMembers, marshalMembers_eq rest]

theorem canonList_eq : ∀ xs : List JSON, canonList xs = xs.map canon
  | [] => by simp [canonList]
  | x :: xs => by simp [canonList, canonList_eq xs]

theorem canonMembers_eq : ∀ kvs : List (String × JSON),
    canonMembers kvs = kvs.map (Prod.map id canon)
  | [] => by simp [canonMembers]
  | (k, v) :: rest => by simp [canonMembers, canonMembers_eq rest]

/-- The canonical form of a marshalled map whose values are the decoded members
of an object. -/
theorem canon_obj_roundtrip (kvs : List (String × JSON))
    (ih : ∀ p ∈ kvs, canon (marshalValue (valueInterface p.2).1) = canon p.2) :
    canon (.obj (sortByKey (marshalMembers (mapSetAll [] (objectInterface kvs).1)))) =
      canon (.obj kvs) := by
  have hI : ((mapSetAll [] kvs).map Prod.fst).Nodup := mapSetAll_nodup kvs [] (by simp)
  have e1 : mapSetAll [] (objectInterface kvs).1 =
      (mapSetAll [] kvs).map (Prod.map id (fun v => (valueInterface v).1)) := by
    rw [objectInterface_fst]
    exact mapSetAll_map _ kvs []
  have e2 : mapSetAll [] (canonMembers kvs) = (mapSetAll [] kvs).map (Prod.map id canon) := by
    rw [canonMembers_eq]
    exact mapSetAll_map _ kvs []
  have e3 : (mapSetAll [] kvs).map
        (Prod.map id (fun v => canon (marshalValue (valueInterface v).1))) =
      (mapSetAll [] kvs).map (Prod.map id canon) := by
    apply List.map_congr_left
    intro p hp
    have hp' : p ∈ kvs := by
      rcases mem_mapSetAll p kvs [] hp with h | h
      · simp at h
      · exact h
    simp only [Prod.map, id_eq]
    rw [ih p hp']
  have e5 : canonMembers (sortByKey (marshalMembers (mapSetAll [] (objectInterface kvs).1))) =
      sortByKey ((mapSetAll [] kvs).map (Prod.map id canon)) := by
    rw [e1, marshalMembers_eq, canonMembers_eq, ← sortByKey_map, List.map_map, List.map_map,
      ← e3]
    rfl
  have hn : ((sortByKey ((mapSetAll [] kvs).map (Prod.map id canon))).map Prod.fst).Nodup := by
    apply sortByKey_keys_nodup
    rw [keys_map]
    exact hI
  simp only [canon]
  rw [e5, e2, mapSetAll_of_nodup _ [] (by simpa using hn), List.nil_append, sortByKey_idem]

mutual
theorem roundtrip_value : ∀ j : JSON, j.stable = true →
    (valueInterface j).2 = none ∧ canon (marshalValue (valueInterface j).1) = canon j
  | .null, _ => by simp [valueInterface, marshalValue]
  | .bool b, _ => by simp [valueInterface, marshalValue]
  | .str s, _ => by simp [valueInterface, marshalValue]
  | .num n, h => by
    simp only [JSON.stable, JNumber.stable] at h
    cases hp : parseFloat n with
    | none => simp [hp] at h
    | some f =>
      simp only [hp, beq_iff_eq] at h
      simp [valueInterface, hp, marshalValue, canon, h]
  | .arr xs, h => by
    simp only [JSON.stable] at h
    have ih := roundtrip_list xs h
    refine ⟨by simp [valueInterface, ih.1], ?_⟩
    simp only [valueInterface, marshalValue, canon]
    rw [ih.2]
  | .obj kvs, h => by
    simp only [JSON.stable] at h
    have ih := roundtrip_members kvs h
    refine ⟨by simp [valueInterface, ih.1], ?_⟩
    simp only [valueInterface, marshalValue]
    exact canon_obj_roundtrip kvs ih.2
theorem roundtrip_list : ∀ xs : List JSON, stableList xs = true →
    (arrayInterface xs).2 = none ∧
    canonList (marshalList (arrayInterface xs).1) = canonList xs
  | [], _ => by simp [arrayInterface, marshalList, canonList, firstError]
  | x :: xs, h => by
    simp only [stableList, Bool.and_eq_true] at h
    have h1 := roundtrip_value x h.1
    have h2 := roundtrip_list xs h.2
    simp [arrayInterface, marshalList, canonList, firstError, h1.1, h1.2, h2.1, h2.2]
theorem roundtrip_members : ∀ kvs : List (String × JSON), stableMembers kvs = true →
    (objectInterface kvs).2 = none ∧
    ∀ p ∈ kvs, canon (marshalValue (valueInterface p.2).1) = canon p.2
  | [], _ => by simp [objectInterface]
  | (k, v) :: rest, h => by
    simp only [stableMembers, Bool.and_eq_true] at h
    have h1 := roundtrip_value v h.1
    have h2 := roundtrip_members rest h.2
    refine ⟨by simp [objectInterface, firstError, h1.1, h2.1], ?_⟩
    intro p hp
    simp only [List.mem_cons] at hp
    rcases hp with hp | hp
    · subst hp
      exact h1.2
    · exact h2.2 p hp
end

theorem findField_name (f : Field) : findField f.name = some f := by
  cases f <;> rfl

theorem Field.name_injective (f g : Field) (h : f.name = g.name) : f = g := by
  cases f <;> cases g <;> first | rfl | (revert h; decide)

theorem valueInto_nil (j : JSON) : valueInto .nil j = valueInterface j := by
  cases j <;> simp only [valueInto, valueInterface]

theorem arrayInto_nil : ∀ xs : List JSON, arrayInto [] xs = arrayInterface xs
  | [] => by simp [arrayInto, arrayInterface]
  | x :: xs => by simp [arrayInto, arrayInterface, valueInto_nil, arrayInto_nil xs]

theorem arrayInterface_length (xs : List JSON) : (arrayInterface xs).1.length = xs.length := by
  rw [arrayInterface_fst, List.length_map]

theorem setField_roundtrip (f : Field) (j : JSON) (v : ConversionData)
    (hp : marshalField f v = f.zeroJSON) (ha : f.accepts j = true) (hs : j.stable = true) :
    (setField f j v).2 = none ∧ canon (marshalField f (setField f j v).1) = canon j := by
  cases f <;> cases j <;> simp [Field.accepts] at ha
  · simp [setField, storeString, marshalField]
  · simp [setField, storeString, marshalField]
  · rename_i kvs
    have hv : v.Config = none := by
      cases hc : v.Config with
      | none => rfl
      | some m => simp [marshalField, hc, marshalMapField, Field.zeroJSON] at hp
    have h := roundtrip_value (.obj kvs) hs
    simp only [valueInterface, marshalValue] at h
    simp only [setField, storeMap, hv, Option.getD_none, marshalField, marshalMapField]
    exact h
  · rename_i kvs
    have hv : v.Programs = none := by
      cases hc : v.Programs with
      | none => rfl
      | some m => simp [marshalField, hc, marshalMapField, Field.zeroJSON] at hp
    have h := roundtrip_value (.obj kvs) hs
    simp only [valueInterface, marshalValue] at h
    simp only [setField, storeMap, hv, Option.getD_none, marshalField, marshalMapField]
    exact h
  · rename_i xs
    have hv : v.Conversions = none := by
      cases hc : v.Conversions with
      | none => rfl
      | some m => simp [marshalField, hc, marshalSliceField, Field.zeroJSON] at hp
    cases xs with
    | nil =>
      simp [setField, storeSlice, marshalField, marshalSliceField, GoSlice.elems, marshalList]
    | cons x xs =>
      have h := roundtrip_value (.arr (x :: xs)) hs
      simp only [valueInterface, marshalValue] at h
      simp only [setField, storeSlice, hv, Option.map_none', Option.getD_none, marshalField,
        marshalSliceField, GoSlice.elems, arrayInto_nil]
      have hl : List.take (x :: xs).length (arrayInterface (x :: xs)).1 =
          (arrayInterface (x :: xs)).1 := by
        rw [← arrayInterface_length (x :: xs), List.take_length]
      rw [hl]
      exact h

theorem decodeMembers_roundtrip :
    ∀ (members : List (String × JSON)) (v : ConversionData),
      (members.map Prod.fst).Nodup →
      (∀ kv ∈ members, ∃ f ∈ Field.all, f.name = kv.1 ∧ f.accepts kv.2 = true) →
      stableMembers members = true →
      (∀ f : Field, f.name ∈ members.map Prod.fst → marshalField f v = f.zeroJSON) →
      (decodeMembers members v).2 = none ∧
      (∀ (f : Field) (j : JSON), (f.name, j) ∈ members →
        canon (marshalField f (decodeMembers members v).1) = canon j) ∧
      (∀ f : Field, f.name ∉ members.map Prod.fst →
        marshalField f (decodeMembers members v).1 = marshalField f v)
  | [], v, _, _, _, _ => by simp [decodeMembers]
  | (k, j) :: rest, v, hn, hsh, hst, hpr => by
    obtain ⟨g, _, hg, hacc⟩ := hsh (k, j) (List.mem_cons_self _ _)
    simp only at hg hacc
    subst hg
    simp only [stableMembers, Bool.and_eq_true] at hst
    simp only [List.map_cons, List.nodup_cons] at hn
    have hset := setField_roundtrip g j v (hpr g (by simp)) hacc hst.1
    have hne : ∀ f : Field, f.name ∈ rest.map Prod.fst → f ≠ g := by
      intro f hf e
      subst e
      exact hn.1 hf
    have ih := decodeMembers_roundtrip rest (setField g j v).1 hn.2
      (fun kv hkv => hsh kv (List.mem_cons_of_mem _ hkv)) hst.2
      (fun f hf => by
        rw [marshalField_setField_ne f g j v (hne f hf)]
        exact hpr f (by simp [hf]))
    have hd : decodeMembers ((g.name, j) :: rest) v =
        ((decodeMembers rest (setField g j v).1).1,
          firstError (setField g j v).2 (decodeMembers rest (setField g j v).1).2) := by
      simp [decodeMembers, findField_name]
    rw [hd]
    refine ⟨by simp [hset.1, ih.1, firstError], ?_, ?_⟩
    · intro f j' hmem
      simp only [List.mem_cons, Prod.mk.injEq] at hmem
      rcases hmem with ⟨hf, hj⟩ | hmem
      · have := Field.name_injective f g hf
        subst this
        subst hj
        simp only
        rw [ih.2.2 f hn.1]
        exact hset.2
      · exact ih.2.1 f j' hmem
    · intro f hf
      simp only [List.map_cons, List.mem_cons, not_or] at hf
      have hfg : f ≠ g := fun e => hf.1 (by rw [e])
      simp only
      rw [ih.2.2 f hf.2, marshalField_setField_ne f g j v hfg]

/-- A list with distinct keys has distinct members. -/
theorem nodup_of_keys_nodup {α : Type} (l : List (String × α)) (h : (l.map Prod.fst).Nodup) :
    l.Nodup :=
  List.Nodup.of_map _ h

/-- The served struct is semantically equal to an input of the recognised shape
once every field holds what its member decodes to. -/
theorem canon_struct_eq (members : List (String × JSON)) (d : ConversionData)
    (hshape : RecognisedShape members)
    (hfield : ∀ (f : Field) (j : JSON), (f.name, j) ∈ members →
      canon (marshalField f d) = canon j) :
    canon (marshalStruct d) = canon (.obj members) := by
  obtain ⟨hn, hall, hsh⟩ := hshape
  have hB : ((Field.all.map (fun f => (f.name, marshalField f d))).map Prod.fst).Nodup := by
    simp only [List.map_map, Function.comp_def]
    decide
  have hB' : (((Field.all.map (fun f => (f.name, marshalField f d))).map
      (Prod.map id canon)).map Prod.fst).Nodup := by
    rw [keys_map]
    exact hB
  have hM' : ((members.map (Prod.map id canon)).map Prod.fst).Nodup := by
    rw [keys_map]
    exact hn
  have hperm : ((Field.all.map (fun f => (f.name, marshalField f d))).map
      (Prod.map id canon)).Perm (members.map (Prod.map id canon)) := by
    rw [List.perm_ext_iff_of_nodup (nodup_of_keys_nodup _ hB') (nodup_of_keys_nodup _ hM')]
    intro a
    simp only [List.mem_map, Prod.map, id_eq]
    constructor
    · rintro ⟨b, ⟨f, hf, rfl⟩, rfl⟩
      have hk := hall f hf
      simp only [List.mem_map] at hk
      obtain ⟨kv, hkv, hk⟩ := hk
      refine ⟨kv, hkv, ?_⟩
      have hmem : (f.name, kv.2) ∈ members := by
        rw [← hk]
        exact hkv
      rw [hfield f kv.2 hmem, hk]
    · rintro ⟨kv, hkv, rfl⟩
      obtain ⟨f, hf, hk, _⟩ := hsh kv hkv
      refine ⟨(f.name, marshalField f d), ⟨f, hf, rfl⟩, ?_⟩
      have hmem : (f.name, kv.2) ∈ members := by
        rw [hk]
        exact hkv
      simp only
      rw [hfield f kv.2 hmem, hk]
  simp only [marshalStruct, canon, canonMembers_eq]
  rw [mapSetAll_of_nodup _ [] (by simpa using hB'), mapSetAll_of_nodup _ [] (by simpa using hM'),
    List.nil_append, List.nil_append]
  rw [sortByKey_eq_of_perm _ _ hperm hB']

/-- C1 (amended): round trip of the recognised fields. For every file content
that is a JSON object whose top-level keys are exactly `lastUpdated` (string),
`dataSource` (string), `config` (object), `programs` (object) and `conversions`
(array), each occurring once, that is nested no deeper than 10000 levels, whose
strings are sequences of Unicode scalar values, and in which every number
survives the conversion to `float64` and back, `loadConversionData` returns no
error and a subsequent `getConversions` responds with status 200 and a body
semantically equal to the input document. -/
theorem C1_round_trip (fs : FileSystem) (p : Process) (c : Context)
    (members : List (String × JSON))
    (hfile : osReadFile fs (dataPath fs) = .ok (.json (.obj members)))
    (hshape : RecognisedShape members)
    (hdepth : (JSON.obj members).depth ≤ maxNestingDepth)
    (hstable : (JSON.obj members).stable = true) :
    (loadConversionData fs p).2 = none ∧
    (getConversions (loadConversionData fs p).1 c).2.status = 200 ∧
    (getConversions (loadConversionData fs p).1 c).2.body.sameAs (.obj members) := by
  have hdec := decodeMembers_roundtrip members ConversionData.zero hshape.1 hshape.2.2
    (by simpa [JSON.stable] using hstable) (fun f _ => by cases f <;> rfl)
  have hu : unmarshal (.json (.obj members)) ConversionData.zero =
      decodeMembers members ConversionData.zero := by
    simp [unmarshal, Nat.not_lt.2 hdepth, unmarshalRoot]
  have hl : (loadConversionData fs p).2 = none ∧
      (loadConversionData fs p).1.conversionData =
        some (decodeMembers members ConversionData.zero).1 := by
    unfold loadConversionData
    rw [hfile]
    simp [hu, hdec.1]
  refine ⟨hl.1, (getConversions_body _ c _ hl.2).1, ?_⟩
  exact ⟨marshalStruct (decodeMembers members ConversionData.zero).1,
    (getConversions_body _ c _ hl.2).2, canon_struct_eq members _ hshape hdec.2.1⟩

/-- C1 (amended) at the document of scenario 1 with nested values added: it has
the recognised shape, depth 3, and the numbers `1.5` and `1000`. -/
theorem C1_witness :
    RecognisedShape membersScenario ∧
    (loadConversionData (fsWith (.json (.obj membersScenario))) Process.start).2 = none ∧
    (getConversions (loadConversionData (fsWith (.json (.obj membersScenario)))
      Process.start).1 Context.new).2.status = 200 ∧
    (getConversions (loadConversionData (fsWith (.json (.obj membersScenario)))
      Process.start).1 Context.new).2.body.sameAs (.obj membersScenario) :=
  ⟨⟨by decide, by decide, by decide⟩,
    C1_round_trip (fsWith (.json (.obj membersScenario))) Process.start Context.new
      membersScenario rfl ⟨by decide, by decide, by decide⟩ (by decide) (by decide)⟩

/-- The depth of `deepArray n` is `n`. -/
theorem depth_deepArray : ∀ n : Nat, (deepArray n).depth = n
  | 0 => rfl
  | n + 1 => by simp [deepArray, JSON.depth, depthList, depth_deepArray n]

/-- The depth of a document built by `membersAround`. -/
theorem depth_membersAround (entry : JSON) :
    (JSON.obj (membersAround entry)).depth = entry.depth + 2 := by
  simp [membersAround, JSON.depth, depthMembers, depthList]

/-- The document `deepArray n` holds no number. -/
theorem stable_deepArray : ∀ n : Nat, (deepArray n).stable = true
  | 0 => rfl
  | n + 1 => by simp [deepArray, JSON.stable, stableList, stable_deepArray n]

/-- The numbers of a document built by `membersAround` are those of the entry. -/
theorem stable_membersAround (entry : JSON) :
    (JSON.obj (membersAround entry)).stable = entry.stable := by
  simp [membersAround, JSON.stable, stableMembers, stableList]

/-- A JSON body is semantically equal to a document when the canonical forms are
equal. -/
theorem sameAs_json (d doc : JSON) : (Body.json d).sameAs doc ↔ canon d = canon doc := by
  constructor
  · rintro ⟨d', hd, hc⟩
    cases hd
    exact hc
  · intro h
    exact ⟨d, rfl, h⟩

/-- The body served after a load from a file system with one file. -/
theorem served_body (data : FileContent) :
    (getConversions (loadConversionData (fsWith data) Process.start).1 Context.new).2.body =
      .json (marshalStruct (unmarshal data ConversionData.zero).1) := by
  have h := (load_of_file (fsWith data) Process.start data rfl).2
  exact (getConversions_body _ _ _ h).2

set_option maxRecDepth 100000 in
/-- C1 fails at four documents whose top-level keys are the five recognised ones
with values of the stated types.
(1) `conversions` holds the number `1e400`: `ParseFloat` reports a range error
and `loadConversionData` returns an error.
(2) `conversions` holds the integer `9007199254740993`: the load succeeds and the
body serves `9007199254740992`, so it is not equal to the input.
(3) `config` is given twice, as `{"a": 1}` and as `{"b": 2}`: the load succeeds,
the decoder merges both objects into one map, and the body is not equal to the
input.
(4) `conversions` holds arrays nested 10000 deep, the document is 10001 deep:
`checkValid` rejects it and `loadConversionData` returns the error. -/
theorem C1_counterexample :
    (RecognisedShape (membersAround (.num hugeNumber)) ∧
      ∃ e, (loadConversionData (fsWith (.json (.obj (membersAround (.num hugeNumber)))))
        Process.start).2 = some (.decode e)) ∧
    (RecognisedShape (membersAround (.num oddInteger)) ∧
      (loadConversionData (fsWith (.json (.obj (membersAround (.num oddInteger)))))
        Process.start).2 = none ∧
      ¬ (getConversions (loadConversionData
          (fsWith (.json (.obj (membersAround (.num oddInteger))))) Process.start).1
          Context.new).2.body.sameAs (.obj (membersAround (.num oddInteger)))) ∧
    ((∀ f ∈ Field.all, f.name ∈ membersTwice.map Prod.fst) ∧
      (∀ kv ∈ membersTwice, ∃ f ∈ Field.all, f.name = kv.1 ∧ f.accepts kv.2 = true) ∧
      (JSON.obj membersTwice).stable = true ∧
      (JSON.obj membersTwice).depth ≤ maxNestingDepth ∧
      (loadConversionData (fsWith (.json (.obj membersTwice))) Process.start).2 = none ∧
      ¬ (getConversions (loadConversionData (fsWith (.json (.obj membersTwice)))
          Process.start).1 Context.new).2.body.sameAs (.obj membersTwice)) ∧
    (RecognisedShape (membersAround (deepArray 9999)) ∧
      (JSON.obj (membersAround (deepArray 9999))).stable = true ∧
      (JSON.obj (membersAround (deepArray 9999))).depth = maxNestingDepth + 1 ∧
      (loadConversionData (fsWith (.json (.obj (membersAround (deepArray 9999)))))
        Process.start).2 = some (.decode .invalid)) := by
  have hdepth : (JSON.obj (membersAround (deepArray 9999))).depth = maxNestingDepth + 1 := by
    rw [depth_membersAround, depth_deepArray]
    rfl
  refine ⟨⟨⟨by decide, by decide, by decide⟩, .numberRange hugeNumber, by decide⟩,
    ⟨⟨by decide, by decide, by decide⟩, by decide, ?_⟩,
    ⟨by decide, by decide, by decide, by decide, by decide, ?_⟩,
    ⟨⟨by decide, by decide, by decide⟩, ?_, hdepth, ?_⟩⟩
  · rw [served_body, sameAs_json]
    intro hc
    exact absurd (congrArg (JSON.soleNumberAt "conversions") hc) (by decide)
  · rw [served_body, sameAs_json]
    intro hc
    exact absurd (congrArg (JSON.keysAt "config") hc) (by decide)
  · rw [stable_membersAround, stable_deepArray]
  · have h := (load_of_file (fsWith (.json (.obj (membersAround (deepArray 9999)))))
      Process.start _ rfl).1
    rw [h]
    simp [unmarshal, hdepth]

end PointsConverter
